import Mathlib

/-!
Verification of the staticroute/staticrouted reconciliation engine.

This file gives a shallow embedding, in Lean 4, of the core of the
`staticrouted` daemon and the `staticroute` CLI tool (src/staticrouted.c,
src/staticroute.c):

* the reconciler `setup_routes_for_service` (staticrouted.c:187-407), with
  CFDictionary modelled as an association list (`Dict`), the external
  `/sbin/route` command modelled as a success oracle `RouteCmd → Bool`, and
  the dynamic-store / preferences values passed in as explicit arguments;
* the orphan-cleanup callback `remove_routes` (staticrouted.c:164-185);
* the gateway resolution tiers (staticrouted.c:255-317), where fetching a
  missing `NetworkSignature` field yields a NULL CFStringRef that the code
  then passes to `CFStringCreateArrayBySeparatingStrings`; that call with a
  NULL string argument does not return — it is modelled as `Except.error`;
* the exit-status interpretation of `do_route` (staticrouted.c:425-503);
* the change aggregator `dynamic_store_changed` (staticrouted.c:129-157);
* the destination parser `parse_dest` (staticroute.c:100-185), including
  models of the libc `inet_pton` (ISC implementation) and of `sscanf "%d"`;
* the lock/unlock/database-access event traces of the functions that touch
  the SCPreferences configuration database (both programs).
-/

/-! ## CFDictionary model

CoreFoundation dictionaries keyed by CFString, modelled as association
lists.  `dictAdd` models `CFDictionaryAddValue`, which inserts only when the
key is not already present (it never overwrites); `dictRemove` models
`CFDictionaryRemoveValue`; `dictGet` models `CFDictionaryGetValue`. -/

abbrev Dict (α : Type) : Type := List (String × α)

def dictGet {α : Type} (d : Dict α) (k : String) : Option α :=
  match d with
  | [] => none
  | (k', v) :: rest => if k' = k then some v else dictGet rest k

def dictRemove {α : Type} (d : Dict α) (k : String) : Dict α :=
  match d with
  | [] => []
  | (k', v) :: rest =>
    if k' = k then dictRemove rest k else (k', v) :: dictRemove rest k

def dictAdd {α : Type} (d : Dict α) (k : String) (v : α) : Dict α :=
  match dictGet d k with
  | some _ => d
  | none => List.append d [(k, v)]

/-! ## CFString helpers

`CFStringCreateArrayBySeparatingStrings` (with the one-character separators
"/" and ";" the programs use), `CFStringHasPrefix` and
`CFStringCreateWithSubstring`, modelled over the character list of a
string. -/

def splitSep (sep : Char) : List Char → List (List Char)
  | [] => [[]]
  | c :: rest =>
    match splitSep sep rest with
    | [] => [[]]
    | cur :: parts =>
      if c = sep then [] :: cur :: parts else (c :: cur) :: parts

def cfSplit (s : String) (sep : Char) : List String :=
  List.map String.mk (splitSep sep s.data)

def listStartsWith : List Char → List Char → Bool
  | _, [] => true
  | [], _ :: _ => false
  | c :: cs, p :: ps => c = p && listStartsWith cs ps

/-! ## Data model of the reconciler -/

/-- One invocation of `/sbin/route <add|delete> <address>/<prefixLength>
<router>` (staticrouted.c:409-423 build these via `do_route`). -/
inductive RouteAction : Type
  | add : RouteAction
  | delete : RouteAction
deriving DecidableEq

structure RouteCmd : Type where
  action : RouteAction
  address : String
  prefixLength : Int
  router : String
deriving DecidableEq

/-- An entry of the persisted active-route snapshot
(`State:/com.coriolis-systems.StaticRoutes/Service/<id>`).  Each field is a
`CFDictionaryGetValue` lookup that may fail, hence `Option`
(staticrouted.c:169-172, 321-325, 344-347). -/
structure RouteInfo : Type where
  addressFamily : Option String
  address : Option String
  prefixLength : Option Int
  router : Option String
deriving DecidableEq

/-- A desired route as written by the `staticroute` CRUD tool
(staticroute.c:537-547 always stores all three fields). -/
structure DesiredRoute : Type where
  addressFamily : String
  address : String
  prefixLength : Int
deriving DecidableEq

/-- The live per-service state record for one address family
(`State:/Network/Service/<id>/IPv4` or `/IPv6`), restricted to the two
fields the daemon reads. -/
structure ServiceState : Type where
  Router : Option String
  NetworkSignature : Option String
deriving DecidableEq

/-- Working state of one reconciliation pass: `activeStaticRoutes`,
`inactiveStaticRoutes` (the candidate-for-removal copy), and the kernel
route commands spawned so far, in order. -/
structure ReconcileState : Type where
  active : Dict RouteInfo
  inactive : Dict RouteInfo
  cmds : List RouteCmd
deriving DecidableEq

/-! ## Gateway resolution (staticrouted.c:255-317) -/

/-- The signature-string fallback: split `NetworkSignature` on `";"`, find
the first component with the given prefix (`"IPv4.Router="` or
`"IPv6.Router="`), and take the substring from character 12 on
(staticrouted.c:265-281). -/
def findRouterInSignature (pfxTok : String) (sig : String) : Option String :=
  Option.map (fun c => String.mk (List.drop 12 c.data))
    (List.find? (fun c => listStartsWith c.data pfxTok.data) (cfSplit sig ';'))

/-- Resolve one family's router.  If the state record is absent the router is
NULL and routes of the family are later skipped.  If the record is present
the code first reads `Router`; when that is absent it reads
`NetworkSignature` and *unconditionally* passes the result to
`CFStringCreateArrayBySeparatingStrings` (staticrouted.c:263-267): when
`NetworkSignature` is also absent that argument is NULL and the process
crashes, modelled as `Except.error ()`. -/
def resolveRouter (pfxTok : String) (state : Option ServiceState) :
    Except Unit (Option String) :=
  match state with
  | none => Except.ok none
  | some st =>
    match st.Router with
    | some r => Except.ok (some r)
    | none =>
      match st.NetworkSignature with
      | none => Except.error ()
      | some sig => Except.ok (findRouterInSignature pfxTok sig)

/-! ## The per-desired-route loop (staticrouted.c:319-387) -/

/-- `CFStringCreateWithFormat (CFSTR("%@/%@/%@"), addressFamily, address,
prefixLen)` (staticrouted.c:338-343). -/
def routeKey (family address : String) (prefixLen : Int) : String :=
  family ++ "/" ++ address ++ "/" ++ toString prefixLen

def keyOf (r : DesiredRoute) : String :=
  routeKey r.addressFamily r.address r.prefixLength

/-- Which resolved router a desired route uses (staticrouted.c:328-336):
`ipv4Router` when the family compares equal to "IPv4", `ipv6Router` when
"IPv6", otherwise NULL (and the route is skipped). -/
def routerFor (r4 r6 : Option String) (r : DesiredRoute) : Option String :=
  if r.addressFamily = "IPv4" then r4
  else if r.addressFamily = "IPv6" then r6
  else none

/-- The dictionary written on a successful add (staticrouted.c:370-380). -/
def mkRouteInfo (r : DesiredRoute) (router : String) : RouteInfo :=
  ⟨some r.addressFamily, some r.address, some r.prefixLength, some router⟩

/-- `oldRouter` (staticrouted.c:344-347): the `router` field of the active
entry under a key, NULL when the entry or the field is absent. -/
def routerFieldAt (d : Dict RouteInfo) (k : String) : Option String :=
  Option.bind (dictGet d k) RouteInfo.router

/-- The add attempt at the end of a loop iteration (staticrouted.c:365-384):
spawn the add; on success `CFDictionaryAddValue` the new entry into the
active snapshot (insert only if the key is absent) and remove the key from
the candidate-for-removal set; on failure change neither dictionary. -/
def addStep (env : RouteCmd → Bool) (st : ReconcileState) (r : DesiredRoute)
    (router : String) : ReconcileState :=
  let addCmd : RouteCmd := ⟨RouteAction.add, r.address, r.prefixLength, router⟩
  if env addCmd then
    { active := dictAdd st.active (keyOf r) (mkRouteInfo r router),
      inactive := dictRemove st.inactive (keyOf r),
      cmds := st.cmds ++ [addCmd] }
  else
    { st with cmds := st.cmds ++ [addCmd] }

/-- One iteration of the per-desired-route loop (staticrouted.c:319-387).
With no resolved router the route is skipped.  Otherwise: if an active
entry exists under the key with the same router, only drop the key from the
candidate-for-removal set; if it exists with a different router, spawn a
remove of the old route (deleting the active entry only on success, the
candidate key unconditionally) and then attempt the add; with no old
router, attempt the add directly. -/
def processDesired (env : RouteCmd → Bool) (r4 r6 : Option String)
    (st : ReconcileState) (r : DesiredRoute) : ReconcileState :=
  match routerFor r4 r6 r with
  | none => st
  | some router =>
    match routerFieldAt st.active (keyOf r) with
    | some oldR =>
      if oldR = router then
        { st with inactive := dictRemove st.inactive (keyOf r) }
      else
        addStep env
          { active :=
              if env ⟨RouteAction.delete, r.address, r.prefixLength, oldR⟩
              then dictRemove st.active (keyOf r) else st.active,
            inactive := dictRemove st.inactive (keyOf r),
            cmds := st.cmds ++
              [⟨RouteAction.delete, r.address, r.prefixLength, oldR⟩] }
          r router
    | none => addStep env st r router

def runDesired (env : RouteCmd → Bool) (r4 r6 : Option String)
    (routes : List DesiredRoute) (st : ReconcileState) : ReconcileState :=
  List.foldl (processDesired env r4 r6) st routes

/-! ## Orphan cleanup (staticrouted.c:159-185, 389-390) -/

/-- The `remove_routes` applier callback for one candidate-for-removal
entry: a well-formed entry (address, prefixLength and router all present)
spawns a remove and is deleted from the active snapshot only on success;
an entry missing any of the three fields is deleted unconditionally with
no spawn. -/
def remove_routes (env : RouteCmd → Bool) (active : Dict RouteInfo)
    (k : String) (route : RouteInfo) : Dict RouteInfo × List RouteCmd :=
  match route.address, route.prefixLength, route.router with
  | some a, some p, some r =>
    let cmd : RouteCmd := ⟨RouteAction.delete, a, p, r⟩
    (if env cmd then dictRemove active k else active, [cmd])
  | _, _, _ => (dictRemove active k, [])

/-- `CFDictionaryApplyFunction (inactiveStaticRoutes, remove_routes, &ctx)`
(staticrouted.c:389-390), sequentialised over the association list. -/
def removeAll (env : RouteCmd → Bool) (inactive active : Dict RouteInfo) :
    Dict RouteInfo × List RouteCmd :=
  match inactive with
  | [] => (active, [])
  | kv :: rest =>
    let step := remove_routes env active kv.1 kv.2
    let res := removeAll env rest step.1
    (res.1, step.2 ++ res.2)

/-! ## The whole reconciliation pass (staticrouted.c:187-407) -/

/-- What one pass did: the kernel commands spawned, in order, and the
snapshot written back by `SCDynamicStoreSetValue` (`none` when the pass
returned early and wrote nothing). -/
structure ReconcileResult : Type where
  cmds : List RouteCmd
  persisted : Option (Dict RouteInfo)
deriving DecidableEq

/-- `setup_routes_for_service`.  Arguments stand for the values the function
reads from its environment: `staticRoutes` is the preferences value under
the `com.coriolis-systems.StaticRoutes` key (NULL when absent), `snapshot`
the dynamic-store value under the per-service state key, `ipv4State` and
`ipv6State` the live service state records.  `env` is the `/sbin/route`
success oracle.  An `Except.error` is the crash of `resolveRouter`. -/
def setup_routes_for_service (env : RouteCmd → Bool)
    (staticRoutes : Option (Dict (List DesiredRoute))) (serviceID : String)
    (snapshot : Option (Dict RouteInfo))
    (ipv4State ipv6State : Option ServiceState) :
    Except Unit ReconcileResult :=
  match staticRoutes with
  | none => Except.ok ⟨[], none⟩
  | some sr =>
    match dictGet sr serviceID with
    | none => Except.ok ⟨[], none⟩
    | some routes =>
      let active0 := Option.getD snapshot []
      match resolveRouter "IPv4.Router=" ipv4State with
      | Except.error e => Except.error e
      | Except.ok r4 =>
        match resolveRouter "IPv6.Router=" ipv6State with
        | Except.error e => Except.error e
        | Except.ok r6 =>
          let st := runDesired env r4 r6 routes ⟨active0, active0, []⟩
          let fin := removeAll env st.inactive st.active
          Except.ok ⟨st.cmds ++ fin.2, some fin.1⟩

/-- The spec's desired-state read interface: `getDesiredRoutes(serviceID)`,
empty when none are configured (it abstracts both an absent table and an
absent per-service entry to the empty sequence). -/
def getDesiredRoutes (staticRoutes : Option (Dict (List DesiredRoute)))
    (serviceID : String) : List DesiredRoute :=
  Option.getD (Option.bind staticRoutes (fun d => dictGet d serviceID)) []

/-! ## The route mutator's exit-status interpretation
(staticrouted.c:425-503) -/

/-- Outcome of spawning `/sbin/route` and waiting for it:
`posix_spawn` failed, or the child was terminated by a signal
(`WIFSIGNALED`), or it exited with `WEXITSTATUS` code. -/
inductive SpawnOutcome : Type
  | spawnFailed : SpawnOutcome
  | killed : Nat → SpawnOutcome
  | exited : Nat → SpawnOutcome
deriving DecidableEq

/-- The value `do_route` returns given the spawn outcome: `false` on spawn
failure (staticrouted.c:469-479), `false` on signal termination
(staticrouted.c:487-493), `false` on a nonzero exit status
(staticrouted.c:495-500), else `true`. -/
def do_route_result (outcome : SpawnOutcome) : Bool :=
  match outcome with
  | SpawnOutcome.spawnFailed => false
  | SpawnOutcome.killed _ => false
  | SpawnOutcome.exited code => decide (code = 0)

/-! ## Change aggregator (staticrouted.c:129-157) -/

/-- Per changed key: split on "/" and, when there are at least four
components, take component index 3 as the service identifier
(staticrouted.c:139-153).  No component is checked against "Service". -/
def extractServiceID (key : String) : Option String :=
  let components := cfSplit key '/'
  if 4 ≤ components.length then components.get? 3 else none

/-- `CFSetAddValue` on the mutable service set: a no-op when the value is
already a member (staticrouted.c:149). -/
def setInsert (acc : List String) (x : String) : List String :=
  if x ∈ acc then acc else acc ++ [x]

/-- The deduplicated service set built by `dynamic_store_changed` and then
handed to `install_routes` via `CFSetApplyFunction`: one reconcile call
per distinct extracted identifier (staticrouted.c:134-156). -/
def aggregatorServices (changedKeys : List String) : List String :=
  List.foldl setInsert [] (List.filterMap extractServiceID changedKeys)

/-- Modelled from the spec: the key shape `.../Service/<id>/...` — a
component equal to "Service" followed by the identifier component and at
least one further component.  This is the shape the claim says is required
before an identifier is extracted; it is compared against what
`extractServiceID` actually does. -/
def hasServiceShapeAux : List String → Bool
  | "Service" :: _ :: _ :: _ => true
  | _ :: rest => hasServiceShapeAux rest
  | [] => false

def hasServiceShape (key : String) : Bool :=
  hasServiceShapeAux (cfSplit key '/')

/-! ## Configuration-database lock discipline (both programs)

Event traces of every function that touches the SCPreferences
configuration database.  `lock`/`unlock` are `SCPreferencesLock` /
`SCPreferencesUnlock`; `dbRead` is one `SCPreferencesGetValue` call
(including the one inside `sc_get_value_at_path`, staticroute.c:38-66);
`dbWrite` is `SCPreferencesSetValue`, `SCPreferencesCommitChanges` or
`SCPreferencesApplyChanges`.  Loops over the service order contribute one
`sc_get_value_at_path` read per iteration, abstracted by the number `k` of
iterations executed; booleans select the branch taken.  `SCDynamicStore`
accesses are the observable store, not the configuration database, and
`SCPreferencesSynchronize` (staticrouted.c:190) only invalidates the cached
view; neither appears in the traces. -/

inductive DbEvent : Type
  | lock : DbEvent
  | unlock : DbEvent
  | dbRead : DbEvent
  | dbWrite : DbEvent
deriving DecidableEq

/-- `balancedFrom depth t`: scanning `t` with `depth` locks held, every
database access happens with the lock held, every unlock matches a lock,
and the lock is fully released at the end. -/
def balancedFrom : Nat → List DbEvent → Bool
  | d, [] => d == 0
  | d, DbEvent.lock :: r => balancedFrom (d + 1) r
  | d, DbEvent.unlock :: r => decide (0 < d) && balancedFrom (d - 1) r
  | d, DbEvent.dbRead :: r => decide (0 < d) && balancedFrom d r
  | d, DbEvent.dbWrite :: r => decide (0 < d) && balancedFrom d r

def properlyBracketed (t : List DbEvent) : Bool := balancedFrom 0 t

/-- `service_by_name` (staticroute.c:270-308): reads `CurrentSet`, reads
the current-set dictionary via `sc_get_value_at_path`, then one
`sc_get_value_at_path` read per loop iteration — and never takes the
preferences lock. -/
def service_by_name_trace (k : Nat) : List DbEvent :=
  DbEvent.dbRead :: DbEvent.dbRead :: List.replicate k DbEvent.dbRead

/-- The section of `list_routes` under the lock (staticroute.c:435-459). -/
def list_routes_locked_trace : List DbEvent :=
  [DbEvent.lock, DbEvent.dbRead, DbEvent.unlock]

/-- `list_routes` (staticroute.c:419-464): the `service_by_name` lookup
runs before the lock is taken; `found = false` is the early error
return. -/
def list_routes_trace (k : Nat) (found : Bool) : List DbEvent :=
  service_by_name_trace k ++ if found then list_routes_locked_trace else []

/-- `setup_routes_for_service` (staticrouted.c:187-407): lock, one
`SCPreferencesGetValue` of the routes table, and an unlock on each of the
three exit paths (absent table, staticrouted.c:197-200; absent per-service
entry, staticrouted.c:204-207; full pass, staticrouted.c:406). -/
def setup_routes_for_service_trace (hasTable hasRoutes : Bool) :
    List DbEvent :=
  if hasTable = false then [DbEvent.lock, DbEvent.dbRead, DbEvent.unlock]
  else if hasRoutes = false then [DbEvent.lock, DbEvent.dbRead, DbEvent.unlock]
  else [DbEvent.lock, DbEvent.dbRead, DbEvent.unlock]

/-- `list_services` (staticroute.c:310-346). -/
def list_services_trace (k : Nat) : List DbEvent :=
  DbEvent.lock :: DbEvent.dbRead :: DbEvent.dbRead ::
    (List.replicate k DbEvent.dbRead ++ [DbEvent.unlock])

/-- `list_all_routes` (staticroute.c:348-417). -/
def list_all_routes_trace (hasTable : Bool) (k : Nat) : List DbEvent :=
  DbEvent.lock :: DbEvent.dbRead ::
    (if hasTable then
      DbEvent.dbRead :: DbEvent.dbRead ::
        (List.replicate k DbEvent.dbRead ++ [DbEvent.unlock])
     else [DbEvent.unlock])

/-- The section of `add_route` under the lock (staticroute.c:498-583):
read the routes table, set the new value, and on success commit and, on
further success, apply. -/
def add_route_locked_trace (setOk commitOk : Bool) : List DbEvent :=
  DbEvent.lock :: DbEvent.dbRead :: DbEvent.dbWrite ::
    ((if setOk then
       DbEvent.dbWrite :: (if commitOk then [DbEvent.dbWrite] else [])
      else []) ++ [DbEvent.unlock])

/-- `add_route` (staticroute.c:466-596): `service_by_name` before the
lock. -/
def add_route_trace (k : Nat) (found setOk commitOk : Bool) : List DbEvent :=
  service_by_name_trace k ++
    (if found then add_route_locked_trace setOk commitOk else [])

/-- The section of `delete_route` under the lock (staticroute.c:630-734):
early unlocked-and-return paths for an absent table (staticroute.c:636-642),
an absent per-service list (staticroute.c:652-659) and a route not found
(staticroute.c:696-703); else set, commit, apply. -/
def delete_route_locked_trace
    (hasTable hasRoutes routeFound setOk commitOk : Bool) : List DbEvent :=
  DbEvent.lock :: DbEvent.dbRead ::
    (if hasTable = false then [DbEvent.unlock]
     else if hasRoutes = false then [DbEvent.unlock]
     else if routeFound = false then [DbEvent.unlock]
     else DbEvent.dbWrite ::
       ((if setOk then
          DbEvent.dbWrite :: (if commitOk then [DbEvent.dbWrite] else [])
         else []) ++ [DbEvent.unlock]))

/-- `delete_route` (staticroute.c:598-747): `service_by_name` before the
lock. -/
def delete_route_trace (k : Nat)
    (found hasTable hasRoutes routeFound setOk commitOk : Bool) :
    List DbEvent :=
  service_by_name_trace k ++
    (if found then
      delete_route_locked_trace hasTable hasRoutes routeFound setOk commitOk
     else [])

/-! ## Destination parser (staticroute.c:100-185) -/

inductive AF : Type
  | inet : AF
  | inet6 : AF
deriving DecidableEq

/-- `struct destination` (staticroute.c:22-30): the in_addr / in6_addr
union is represented by the address's numeric value read in network
(big-endian) byte order — a 32-bit value for IPv4, a 128-bit value for
IPv6. -/
structure Destination : Type where
  af : AF
  prefix_len : Int
  addr : Nat
deriving DecidableEq

def famWidth : AF → Int
  | AF.inet => 32
  | AF.inet6 => 128

/-- `strchr (str, '/')` and the copy of the part before it
(staticroute.c:103-115): `(before-first-slash, some after-first-slash)`
when a slash occurs, else `(str, none)`. -/
def splitAtSlash : List Char → List Char × Option (List Char)
  | [] => ([], none)
  | c :: rest =>
    if c = '/' then ([], some rest)
    else
      let r := splitAtSlash rest
      (c :: r.1, r.2)

/-- The `isspace` characters `sscanf "%d"` skips. -/
def isSpaceC (c : Char) : Bool :=
  c = ' ' || c = '\t' || c = '\n' || c = '\x0b' || c = '\x0c' || c = '\r'

def digitVal (c : Char) : Nat := c.toNat - 48

def scanDigits (cs : List Char) : Option Nat :=
  let ds := List.takeWhile Char.isDigit cs
  if ds.isEmpty then none
  else some (List.foldl (fun a c => a * 10 + digitVal c) 0 ds)

/-- `sscanf (ptr + 1, "%d", &prefix_len)` (staticroute.c:106): skip
whitespace, optional sign, then at least one decimal digit; `none` models
a return value other than 1. -/
def sscanfInt (cs : List Char) : Option Int :=
  match List.dropWhile isSpaceC cs with
  | '-' :: rest => Option.map (fun n => -(n : Int)) (scanDigits rest)
  | '+' :: rest => Option.map (fun n => (n : Int)) (scanDigits rest)
  | other => Option.map (fun n => (n : Int)) (scanDigits other)

/-- The octet loop of `inet_pton(AF_INET, ...)`, modelled on the ISC/BIND
implementation the platform libc uses: decimal octets separated by '.',
exactly four, each at most 255, no leading zeros, at least one digit per
octet.  `cur` is the octet being accumulated, `acc` the committed ones. -/
def pton4Loop : List Char → Nat → Bool → List Nat → Option (List Nat)
  | [], cur, sawDigit, acc =>
    if sawDigit && decide (acc.length = 3) then some (acc ++ [cur]) else none
  | c :: rest, cur, sawDigit, acc =>
    if c.isDigit then
      if sawDigit && decide (cur = 0) then none
      else if decide (255 < cur * 10 + digitVal c) then none
      else if !sawDigit && decide (3 < acc.length) then none
      else pton4Loop rest (cur * 10 + digitVal c) true acc
    else if c = '.' && sawDigit then
      if decide (acc.length = 3) then none
      else pton4Loop rest 0 false (acc ++ [cur])
    else none

/-- Big-endian byte sequence to numeric value. -/
def bytesToNat (bs : List Nat) : Nat :=
  List.foldl (fun a b => a * 256 + b) 0 bs

def inet_pton4 (cs : List Char) : Option Nat :=
  Option.map bytesToNat (pton4Loop cs 0 false [])

/-- `strchr` over the `xdigits_l` / `xdigits_u` tables of the ISC code,
as the value of the hexadecimal digit (code points 48-57, 97-102,
65-70). -/
def hexDigitVal (c : Char) : Option Nat :=
  if 48 ≤ c.toNat ∧ c.toNat ≤ 57 then some (c.toNat - 48)
  else if 97 ≤ c.toNat ∧ c.toNat ≤ 102 then some (c.toNat - 87)
  else if 65 ≤ c.toNat ∧ c.toNat ≤ 70 then some (c.toNat - 55)
  else none

/-- The main loop of `inet_pton(AF_INET6, ...)` (ISC implementation):
`bytes` are the committed bytes of `tmp`, `colonp` the byte position of a
`::` when one was seen, `val`/`sawX` the hexadecimal group being
accumulated, and `curtok` the suffix starting at the current token (used
when an embedded IPv4 tail is met at a '.').  Returns the bytes written
and the `::` position. -/
def pton6Loop : List Char → List Char → Nat → Bool → Option Nat →
    List Nat → Option (List Nat × Option Nat)
  | [], _, val, sawX, colonp, bytes =>
    if sawX then
      if decide (16 < bytes.length + 2) then none
      else some (bytes ++ [val / 256, val % 256], colonp)
    else some (bytes, colonp)
  | c :: rest, curtok, val, sawX, colonp, bytes =>
    match hexDigitVal c with
    | some d =>
      if decide (0xffff < val * 16 + d) then none
      else pton6Loop rest curtok (val * 16 + d) true colonp bytes
    | none =>
      if c = ':' then
        if !sawX then
          if colonp.isSome then none
          else pton6Loop rest rest val sawX (some bytes.length) bytes
        else if decide (16 < bytes.length + 2) then none
        else pton6Loop rest rest 0 false colonp
          (bytes ++ [val / 256, val % 256])
      else if c = '.' && decide (bytes.length + 4 ≤ 16) then
        match pton4Loop curtok 0 false [] with
        | some v4 => some (bytes ++ v4, colonp)
        | none => none
      else none

/-- The epilogue of `inet_pton(AF_INET6, ...)`: expand a `::` by moving
the bytes after it to the end and zero-filling, and require exactly 16
bytes. -/
def pton6Finish : List Nat × Option Nat → Option (List Nat)
  | (bytes, some cp) =>
    if bytes.length = 16 then none
    else some (List.take cp bytes ++ List.replicate (16 - bytes.length) 0 ++
      List.drop cp bytes)
  | (bytes, none) => if bytes.length = 16 then some bytes else none

/-- `inet_pton(AF_INET6, ...)`: a leading ':' must be followed by another
':' (consuming one character), then the loop and the epilogue run. -/
def inet_pton6 (cs : List Char) : Option Nat :=
  match cs with
  | ':' :: rest =>
    match rest with
    | ':' :: _ =>
      Option.map bytesToNat
        (Option.bind (pton6Loop rest rest 0 false none []) pton6Finish)
    | _ => none
  | _ =>
    Option.map bytesToNat
      (Option.bind (pton6Loop cs cs 0 false none []) pton6Finish)

/-- `0xffffffffu << k` as a 32-bit value (staticroute.c:131, 158-173). -/
def mask32 (k : Nat) : Nat := (0xffffffff <<< k) % 2 ^ 32

/-- The word-wise masking of an IPv6 address to `p` prefix bits
(staticroute.c:150-175), expressed on the address's numeric value: the
four 32-bit words in network order are the base-2^32 digits. -/
def applyV6Mask (p : Nat) (a : Nat) : Nat :=
  if p = 0 then 0
  else if p ≤ 32 then (a / 2 ^ 96 % 2 ^ 32 &&& mask32 (32 - p)) * 2 ^ 96
  else if p ≤ 64 then
    a / 2 ^ 96 % 2 ^ 32 * 2 ^ 96 +
      (a / 2 ^ 64 % 2 ^ 32 &&& mask32 (64 - p)) * 2 ^ 64
  else if p ≤ 96 then
    a / 2 ^ 96 % 2 ^ 32 * 2 ^ 96 + a / 2 ^ 64 % 2 ^ 32 * 2 ^ 64 +
      (a / 2 ^ 32 % 2 ^ 32 &&& mask32 (96 - p)) * 2 ^ 32
  else
    a / 2 ^ 96 % 2 ^ 32 * 2 ^ 96 + a / 2 ^ 64 % 2 ^ 32 * 2 ^ 64 +
      a / 2 ^ 32 % 2 ^ 32 * 2 ^ 32 + (a % 2 ^ 32 &&& mask32 (128 - p))

/-- The IPv4 branch of `parse_dest` (staticroute.c:117-138): a prefix at
most 0 gives the zero mask and prefix 0; otherwise the prefix is capped at
32 and the address is masked. -/
def clamp4 (p0 : Int) : Int := if 32 < p0 then 32 else p0

def ipv4Dest (a4 : Nat) (p0 : Int) : Destination :=
  if p0 ≤ 0 then ⟨AF.inet, 0, 0⟩
  else ⟨AF.inet, clamp4 p0, a4 &&& mask32 (32 - Int.toNat (clamp4 p0))⟩

/-- The IPv6 branch of `parse_dest` (staticroute.c:139-179): the prefix is
clamped into [0, 128] and the address masked word-wise. -/
def clamp6 (p0 : Int) : Int :=
  if p0 < 0 then 0 else if 128 < p0 then 128 else p0

def ipv6Dest (a6 : Nat) (p0 : Int) : Destination :=
  ⟨AF.inet6, clamp6 p0, applyV6Mask (Int.toNat (clamp6 p0)) a6⟩

/-- `parse_dest` (staticroute.c:100-185).  The prefix suffix scan failing
(or no '/' at all) makes `max_prefix` true, modelled by the scanned value
being `none` and `Option.getD` supplying the family's full width; the
address part before the '/' is tried as IPv4 first, then IPv6. -/
def parse_dest (s : String) : Option Destination :=
  match inet_pton4 (splitAtSlash s.data).1 with
  | some a4 =>
    some (ipv4Dest a4
      (Option.getD (Option.bind (splitAtSlash s.data).2 sscanfInt) 32))
  | none =>
    match inet_pton6 (splitAtSlash s.data).1 with
    | some a6 =>
      some (ipv6Dest a6
        (Option.getD (Option.bind (splitAtSlash s.data).2 sscanfInt) 128))
    | none => none

/-! ## Basic dictionary lemmas -/

theorem dictGet_remove_self {α : Type} (d : Dict α) (k : String) :
    dictGet (dictRemove d k) k = none := by
  induction d with
  | nil => rfl
  | cons kv rest ih =>
    obtain ⟨a, b⟩ := kv
    by_cases h : a = k
    · simpa [dictRemove, h] using ih
    · simpa [dictRemove, h, dictGet] using ih

theorem dictGet_remove_ne {α : Type} (d : Dict α) (k k' : String)
    (h : k' ≠ k) : dictGet (dictRemove d k) k' = dictGet d k' := by
  induction d with
  | nil => rfl
  | cons kv rest ih =>
    obtain ⟨a, b⟩ := kv
    by_cases hk : a = k
    · have hne : a ≠ k' := by
        intro hc; exact h (hc ▸ hk)
      simpa [dictRemove, hk, dictGet, hne, Ne.symm h] using ih
    · by_cases hk' : a = k'
      · simp [dictRemove, hk, dictGet, hk', h]
      · simpa [dictRemove, hk, dictGet, hk'] using ih

theorem dictGet_append_left {α : Type} (d e : List (String × α)) (k : String)
    (v : α) (h : dictGet d k = some v) :
    dictGet (List.append d e) k = some v := by
  induction d with
  | nil => simp [dictGet] at h
  | cons kv rest ih =>
    by_cases hk : kv.1 = k
    · simp [dictGet, hk] at h ⊢; exact h
    · simp [dictGet, hk] at h ⊢; exact ih h

theorem dictGet_append_none {α : Type} (d e : List (String × α)) (k : String)
    (h : dictGet d k = none) :
    dictGet (List.append d e) k = dictGet e k := by
  induction d with
  | nil => rfl
  | cons kv rest ih =>
    by_cases hk : kv.1 = k
    · simp [dictGet, hk] at h
    · simp [dictGet, hk] at h ⊢; exact ih h

theorem dictGet_add_self {α : Type} (d : Dict α) (k : String) (v : α)
    (h : dictGet d k = none) : dictGet (dictAdd d k v) k = some v := by
  unfold dictAdd
  rw [h]
  rw [dictGet_append_none d [(k, v)] k h]
  simp [dictGet]

theorem dictAdd_of_get_some {α : Type} (d : Dict α) (k : String) (v w : α)
    (h : dictGet d k = some w) : dictAdd d k v = d := by
  unfold dictAdd; rw [h]

theorem dictGet_add_ne {α : Type} (d : Dict α) (k k' : String) (v : α)
    (h : k' ≠ k) : dictGet (dictAdd d k v) k' = dictGet d k' := by
  unfold dictAdd
  match hg : dictGet d k with
  | some w => rfl
  | none =>
    match hg' : dictGet d k' with
    | some w => exact dictGet_append_left d [(k, v)] k' w hg'
    | none =>
      rw [dictGet_append_none d [(k, v)] k' hg']
      simp [dictGet, Ne.symm h]

theorem mem_of_dictGet {α : Type} (d : Dict α) (k : String) (v : α)
    (h : dictGet d k = some v) : (k, v) ∈ d := by
  induction d with
  | nil => simp [dictGet] at h
  | cons kv rest ih =>
    obtain ⟨a, b⟩ := kv
    by_cases hk : a = k
    · simp only [dictGet, hk, if_pos rfl] at h
      subst hk
      rw [show v = b from (Option.some.injEq _ _ ▸ h).symm]
      exact List.mem_cons_self _ _
    · simp only [dictGet, hk, if_neg hk] at h
      exact List.mem_cons_of_mem _ (ih h)

theorem dictGet_ne_none_of_mem {α : Type} (d : Dict α) (k : String) (v : α)
    (h : (k, v) ∈ d) : dictGet d k ≠ none := by
  induction d with
  | nil => simp at h
  | cons kv rest ih =>
    obtain ⟨a, b⟩ := kv
    rcases List.mem_cons.mp h with h1 | h2
    · have ha : a = k := (congrArg Prod.fst h1).symm
      simp [dictGet, ha]
    · by_cases hk : a = k
      · simp [dictGet, hk]
      · simp only [dictGet, if_neg hk]
        exact ih h2

theorem mem_of_mem_dictRemove {α : Type} (d : Dict α) (k : String)
    (kv : String × α) (h : kv ∈ dictRemove d k) : kv ∈ d := by
  induction d with
  | nil => simp [dictRemove] at h
  | cons hd rest ih =>
    obtain ⟨a, b⟩ := hd
    by_cases hk : a = k
    · simp only [dictRemove, if_pos hk] at h
      exact List.mem_cons_of_mem _ (ih h)
    · simp only [dictRemove, if_neg hk] at h
      rcases List.mem_cons.mp h with h1 | h2
      · exact h1 ▸ List.mem_cons_self _ _
      · exact List.mem_cons_of_mem _ (ih h2)

theorem dictGet_remove_none {α : Type} (d : Dict α) (k k' : String)
    (h : dictGet d k' = none) : dictGet (dictRemove d k) k' = none := by
  by_cases hk : k' = k
  · subst hk; exact dictGet_remove_self d k'
  · rw [dictGet_remove_ne d k k' hk]; exact h

theorem mem_of_mem_dictAdd {α : Type} (d : Dict α) (k : String) (v : α)
    (kv : String × α) (h : kv ∈ dictAdd d k v) : kv ∈ d ∨ kv = (k, v) := by
  unfold dictAdd at h
  match hg : dictGet d k with
  | some w => rw [hg] at h; exact Or.inl h
  | none =>
    rw [hg] at h
    rcases List.mem_append.mp h with h1 | h2
    · exact Or.inl h1
    · simp at h2; right; cases kv; simpa using h2

/-! ## Claim C6: exit-status interpretation of the route mutator -/

/-- C6: the route mutator returns success if and only if the external route
command was spawned successfully, was not terminated by a signal, and
exited with status 0; spawn failure, signal termination and nonzero exit
each yield failure. -/
theorem c6_do_route_success_iff (outcome : SpawnOutcome) :
    do_route_result outcome = true ↔ outcome = SpawnOutcome.exited 0 := by
  cases outcome <;> simp [do_route_result]

/-! ## Claim C9: orphan cleanup of malformed and well-formed entries -/

/-- C9: during orphan cleanup, an active-snapshot entry lacking any of the
address, prefixLength or router fields is deleted from the snapshot
unconditionally and spawns no route command; a well-formed entry spawns
exactly one Remove and is deleted from the snapshot only if it succeeds. -/
theorem c9_remove_routes_orphans (env : RouteCmd → Bool)
    (active : Dict RouteInfo) (k : String) (route : RouteInfo) :
    (route.address = none ∨ route.prefixLength = none ∨ route.router = none →
      remove_routes env active k route = (dictRemove active k, [])) ∧
    (∀ a p r, route.address = some a → route.prefixLength = some p →
      route.router = some r →
      remove_routes env active k route =
        (if env ⟨RouteAction.delete, a, p, r⟩ then dictRemove active k
         else active, [⟨RouteAction.delete, a, p, r⟩])) := by
  obtain ⟨fam, addr, plen, rtr⟩ := route
  constructor
  · intro h
    cases addr with
    | none => cases plen <;> cases rtr <;> rfl
    | some a =>
      cases plen with
      | none => cases rtr <;> rfl
      | some p =>
        cases rtr with
        | none => rfl
        | some r => simp at h
  · intro a p r ha hp hr
    simp only at ha hp hr
    subst ha; subst hp; subst hr
    rfl

theorem c9_remove_routes_orphans_witness :
    remove_routes (fun _ => true)
      [("k", (⟨some "IPv4", none, none, none⟩ : RouteInfo))] "k"
      ⟨some "IPv4", none, none, none⟩ = ([], []) :=
  ((c9_remove_routes_orphans (fun _ => true)
      [("k", (⟨some "IPv4", none, none, none⟩ : RouteInfo))] "k"
      ⟨some "IPv4", none, none, none⟩).1 (Or.inl rfl)).trans (by decide)

/-! ## Claim C3: a state record with neither Router nor NetworkSignature -/

/-- C3: with a service state record present that has neither a Router nor a
NetworkSignature field, gateway resolution does not complete with an absent
gateway: the daemon passes the NULL NetworkSignature string to
CFStringCreateArrayBySeparatingStrings (staticrouted.c:263-267) and the
pass aborts abnormally instead of skipping the family's routes. -/
theorem c3_missing_gateway_fields_crash :
    setup_routes_for_service (fun _ => true)
      (some [("svc", [⟨"IPv4", "10.0.0.1", 24⟩])]) "svc" none
      (some ⟨none, none⟩) none = Except.error () := rfl

/-! ## Claim C1: what a successful Add leaves in the active snapshot -/

/-- C1 counterexample: old entry `gw1` whose Remove fails, Add of `gw2`
succeeds — the Add is issued and succeeds, yet the active snapshot still
holds the old entry with router `gw1` under the key, not the new entry:
`CFDictionaryAddValue` does not overwrite an existing key
(staticrouted.c:381). -/
theorem c1_counterexample :
    (let env : RouteCmd → Bool := fun c => decide (c.action = RouteAction.add)
     let old : RouteInfo := ⟨some "IPv4", some "10.0.0.0", some 24, some "gw1"⟩
     let r : DesiredRoute := ⟨"IPv4", "10.0.0.0", 24⟩
     let st := processDesired env (some "gw2") none
       ⟨[(keyOf r, old)], [(keyOf r, old)], []⟩ r
     st.cmds = [⟨RouteAction.delete, "10.0.0.0", 24, "gw1"⟩,
                ⟨RouteAction.add, "10.0.0.0", 24, "gw2"⟩] ∧
     env ⟨RouteAction.add, "10.0.0.0", 24, "gw2"⟩ = true ∧
     dictGet st.active (keyOf r) = some old ∧
     old ≠ mkRouteInfo r "gw2") := by
  decide

/-- C1 amended: when the Add succeeds, the snapshot entry under the route's
key afterwards is the new entry exactly when the key was absent from the
working snapshot at the time of the Add; when an entry is still present
(in particular the old-router entry whose preceding Remove failed), that
pre-existing entry survives unchanged — the successful Add inserts but
never overwrites. -/
theorem c1_amended_add_semantics (env : RouteCmd → Bool)
    (r4 r6 : Option String) (r : DesiredRoute) (st : ReconcileState)
    (g : String) (hg : routerFor r4 r6 r = some g)
    (hadd : env ⟨RouteAction.add, r.address, r.prefixLength, g⟩ = true) :
    (dictGet st.active (keyOf r) = none →
      dictGet (processDesired env r4 r6 st r).active (keyOf r) =
        some (mkRouteInfo r g)) ∧
    (∀ old, dictGet st.active (keyOf r) = some old → old.router = none →
      dictGet (processDesired env r4 r6 st r).active (keyOf r) = some old) ∧
    (∀ old oldR, dictGet st.active (keyOf r) = some old →
      old.router = some oldR → oldR ≠ g →
      dictGet (processDesired env r4 r6 st r).active (keyOf r) =
        (if env ⟨RouteAction.delete, r.address, r.prefixLength, oldR⟩ then
          some (mkRouteInfo r g)
        else some old)) := by
  refine ⟨?_, ?_, ?_⟩
  · intro h
    simp only [processDesired, hg, routerFieldAt, h, Option.bind, addStep,
      hadd, if_true]
    exact dictGet_add_self st.active (keyOf r) (mkRouteInfo r g) h
  · intro old hold hrtr
    simp only [processDesired, hg, routerFieldAt, hold, Option.bind, hrtr,
      addStep, hadd, if_true]
    rw [dictAdd_of_get_some st.active (keyOf r) (mkRouteInfo r g) old hold]
    exact hold
  · intro old oldR hold hrtr hne
    simp only [processDesired, hg, routerFieldAt, hold, Option.bind, hrtr,
      if_neg hne, addStep, hadd, if_true]
    by_cases hdel :
        env ⟨RouteAction.delete, r.address, r.prefixLength, oldR⟩ = true
    · simp only [hdel, if_true]
      exact dictGet_add_self _ (keyOf r) (mkRouteInfo r g)
        (dictGet_remove_self st.active (keyOf r))
    · simp only [Bool.not_eq_true] at hdel
      simp only [hdel, Bool.false_eq_true, if_false]
      rw [dictAdd_of_get_some st.active (keyOf r) (mkRouteInfo r g) old hold]
      exact hold

theorem c1_amended_add_semantics_witness :
    dictGet (processDesired (fun _ => true) (some "gw") none ⟨[], [], []⟩
        ⟨"IPv4", "10.0.0.1", 24⟩).active (keyOf ⟨"IPv4", "10.0.0.1", 24⟩) =
      some (mkRouteInfo ⟨"IPv4", "10.0.0.1", 24⟩ "gw") :=
  (c1_amended_add_semantics (fun _ => true) (some "gw") none
    ⟨"IPv4", "10.0.0.1", 24⟩ ⟨[], [], []⟩ "gw" (by decide) rfl).1 rfl

/-! ## Claim C4: a service with no desired routes -/

/-- C4 counterexample: an *empty* desired-route list stored under the
service (so `getDesiredRoutes` returns empty) is not a no-op: the pass
proceeds, spawns a kernel Remove for the existing active entry and persists
a changed (emptied) snapshot. -/
theorem c4_counterexample :
    (let old : RouteInfo := ⟨some "IPv4", some "10.0.0.0", some 24, some "gw1"⟩
     let snap : Dict RouteInfo := [("IPv4/10.0.0.0/24", old)]
     getDesiredRoutes (some [("svc", [])]) "svc" = [] ∧
     setup_routes_for_service (fun _ => true) (some [("svc", [])]) "svc"
       (some snap) none none =
       Except.ok ⟨[⟨RouteAction.delete, "10.0.0.0", 24, "gw1"⟩], some []⟩) :=
  ⟨rfl, rfl⟩

/-- C4 amended: reconcile is a no-op — no kernel command, nothing persisted
— exactly when the configuration database holds no route list under the
service identifier (the whole table or the per-service entry is absent);
when an empty list is present the pass runs in full, treating every active
entry as an orphan. -/
theorem c4_amended_no_entry_noop (env : RouteCmd → Bool)
    (staticRoutes : Option (Dict (List DesiredRoute))) (sid : String)
    (snapshot : Option (Dict RouteInfo)) (s4 s6 : Option ServiceState)
    (h : Option.bind staticRoutes (fun d => dictGet d sid) = none) :
    setup_routes_for_service env staticRoutes sid snapshot s4 s6 =
      Except.ok ⟨[], none⟩ := by
  cases staticRoutes with
  | none => rfl
  | some sr =>
    have h' : dictGet sr sid = none := by simpa using h
    simp [setup_routes_for_service, h']

theorem c4_amended_no_entry_noop_witness :
    setup_routes_for_service (fun _ => true) (some [("other", [])]) "svc"
      none none none = Except.ok ⟨[], none⟩ :=
  c4_amended_no_entry_noop (fun _ => true) (some [("other", [])]) "svc"
    none none none (by decide)

/-! ## Claim C2: idempotence of reconciliation -/

/-- C2 counterexample: with one desired IPv4 route, a resolved gateway and
a route command that fails, the first call spawns an add and persists
exactly the snapshot it read (`some []`); desired routes, gateway state and
the persisted snapshot are unchanged between the calls, so the second call
— the very same computation — spawns the same add again: the second call
performs a kernel mutation. -/
theorem c2_counterexample :
    (let env : RouteCmd → Bool := fun _ => false
     let sr : Option (Dict (List DesiredRoute)) :=
       some [("svc", [⟨"IPv4", "10.0.0.1", 24⟩])]
     let s4 : Option ServiceState := some ⟨some "gw", none⟩
     setup_routes_for_service env sr "svc" (some []) s4 none =
       Except.ok ⟨[⟨RouteAction.add, "10.0.0.1", 24, "gw"⟩], some []⟩ ∧
     [(⟨RouteAction.add, "10.0.0.1", 24, "gw"⟩ : RouteCmd)] ≠ []) :=
  ⟨rfl, by decide⟩

/-! ## Claim C7: the change aggregator -/

/-- C7 counterexample: the batch `["a/b/c/d"]` — a key with four
slash-separated components and no "Service" component at all, so not of
the shape `.../Service/<id>/...` — still contributes a reconcile call, for
"d": the code checks only the component count (staticrouted.c:146). -/
theorem c7_counterexample :
    aggregatorServices ["a/b/c/d"] = ["d"] ∧
    hasServiceShape "a/b/c/d" = false := by
  constructor
  · rfl
  · rfl

theorem setInsert_mem (acc : List String) (x y : String) :
    y ∈ setInsert acc x ↔ y ∈ acc ∨ y = x := by
  unfold setInsert
  by_cases h : x ∈ acc
  · simp only [if_pos h]
    constructor
    · exact Or.inl
    · rintro (h1 | h1)
      · exact h1
      · exact h1 ▸ h
  · simp [if_neg h]

theorem setInsert_nodup (acc : List String) (x : String)
    (h : acc.Nodup) : (setInsert acc x).Nodup := by
  unfold setInsert
  by_cases hx : x ∈ acc
  · simpa [if_pos hx] using h
  · simp only [if_neg hx]
    exact List.Nodup.append h (List.nodup_singleton x)
      (fun a ha hb => hx ((List.mem_singleton.mp hb) ▸ ha))

theorem mem_foldl_setInsert (l acc : List String) (x : String) :
    x ∈ List.foldl setInsert acc l ↔ x ∈ acc ∨ x ∈ l := by
  induction l generalizing acc with
  | nil => simp
  | cons hd tl ih =>
    rw [List.foldl_cons, ih, setInsert_mem]
    constructor
    · rintro ((h | h) | h)
      · exact Or.inl h
      · exact Or.inr (h ▸ List.mem_cons_self _ _)
      · exact Or.inr (List.mem_cons_of_mem _ h)
    · rintro (h | h)
      · exact Or.inl (Or.inl h)
      · rcases List.mem_cons.mp h with h1 | h2
        · exact Or.inl (Or.inr h1)
        · exact Or.inr h2

theorem foldl_setInsert_nodup (l : List String) (acc : List String)
    (h : acc.Nodup) : (List.foldl setInsert acc l).Nodup := by
  induction l generalizing acc with
  | nil => simpa
  | cons hd tl ih => exact ih _ (setInsert_nodup acc hd h)

/-- C7 amended: the aggregator invokes reconcile exactly once per distinct
extracted identifier, where the identifier extracted from a key is its
fourth slash-separated component whenever the key has at least four such
components — with no check that the key mentions `Service`. -/
theorem c7_amended_dedup_and_extraction :
    (∀ (batch : List String) (sid : String),
      List.count sid (aggregatorServices batch) =
        if ∃ k ∈ batch, extractServiceID k = some sid then 1 else 0) ∧
    (∀ k sid, extractServiceID k = some sid ↔
      4 ≤ (cfSplit k '/').length ∧
      (cfSplit k '/').get? 3 = some sid) := by
  constructor
  · intro batch sid
    have hnd := foldl_setInsert_nodup (List.filterMap extractServiceID batch)
      [] List.nodup_nil
    have hm := mem_foldl_setInsert (List.filterMap extractServiceID batch)
      [] sid
    rw [aggregatorServices]
    by_cases h : ∃ k ∈ batch, extractServiceID k = some sid
    · rw [if_pos h]
      exact List.count_eq_one_of_mem hnd
        (hm.mpr (Or.inr (List.mem_filterMap.mpr (by simpa using h))))
    · rw [if_neg h]
      refine List.count_eq_zero.mpr (fun hc => h ?_)
      rcases hm.mp hc with h1 | h2
      · simp at h1
      · simpa using List.mem_filterMap.mp h2
  · intro k sid
    unfold extractServiceID
    by_cases h : 4 ≤ (cfSplit k '/').length
    · simp [h]
    · simp [h]

/-! ## Claim C8: lock bracketing of configuration-database accesses -/

/-- C8 counterexample: `list_routes` reads the configuration database
inside `service_by_name` before any lock acquisition, so its trace is not
properly bracketed (here with zero loop iterations and the service
found). -/
theorem c8_counterexample :
    properlyBracketed (list_routes_trace 0 true) = false := by
  decide

theorem balancedFrom_replicate_dbRead (k d : Nat) (r : List DbEvent)
    (hd : 0 < d) :
    balancedFrom d (List.replicate k DbEvent.dbRead ++ r) =
      balancedFrom d r := by
  induction k with
  | zero => rfl
  | succ n ih => simp [List.replicate_succ, balancedFrom, hd, ih]

/-- C8 amended: the daemon's `setup_routes_for_service` brackets its
configuration-database access with the lock and releases it on every exit
path, as do `list_services`, `list_all_routes` and the locked sections of
`list_routes`, `add_route` and `delete_route`; but `service_by_name` reads
the database while holding no lock, and `list_routes`, `add_route` and
`delete_route` invoke it before acquiring the lock. -/
theorem c8_amended_lock_bracketing (hasTable hasRoutes tbl2 : Bool)
    (k : Nat) (setOk commitOk hasTable3 hasRoutes3 routeFound : Bool) :
    properlyBracketed (setup_routes_for_service_trace hasTable hasRoutes)
      = true ∧
    properlyBracketed (list_services_trace k) = true ∧
    properlyBracketed (list_all_routes_trace tbl2 k) = true ∧
    properlyBracketed list_routes_locked_trace = true ∧
    properlyBracketed (add_route_locked_trace setOk commitOk) = true ∧
    properlyBracketed (delete_route_locked_trace hasTable3 hasRoutes3
      routeFound setOk commitOk) = true ∧
    properlyBracketed (service_by_name_trace k) = false := by
  refine ⟨?_, ?_, ?_, ?_, ?_, ?_, ?_⟩
  · cases hasTable <;> cases hasRoutes <;> decide
  · simp only [properlyBracketed, list_services_trace, balancedFrom]
    rw [balancedFrom_replicate_dbRead k 1 [DbEvent.unlock] (by omega)]
    rfl
  · cases tbl2 with
    | false => simp [properlyBracketed, list_all_routes_trace, balancedFrom]
    | true =>
      simp only [properlyBracketed, list_all_routes_trace, if_pos rfl,
        balancedFrom]
      rw [balancedFrom_replicate_dbRead k 1 [DbEvent.unlock] (by omega)]
      rfl
  · decide
  · cases setOk <;> cases commitOk <;> decide
  · cases hasTable3 <;> cases hasRoutes3 <;> cases routeFound <;>
      cases setOk <;> cases commitOk <;> decide
  · simp [properlyBracketed, service_by_name_trace, balancedFrom]

/-! ## Claims C5 and C10: the destination parser -/

theorem mask32_testBit_low (k i : Nat) (h : i < k) :
    Nat.testBit (mask32 k) i = false := by
  unfold mask32
  rw [Nat.testBit_mod_two_pow, Nat.testBit_shiftLeft]
  simp [Nat.not_le.mpr h]

theorem mod_two_pow_eq_zero_of_testBit (x k : Nat)
    (h : ∀ i, i < k → Nat.testBit x i = false) : x % 2 ^ k = 0 := by
  apply Nat.eq_of_testBit_eq
  intro i
  rw [Nat.testBit_mod_two_pow]
  simp only [Nat.zero_testBit]
  by_cases hi : i < k
  · simp [h i hi]
  · simp [hi]

theorem and_mask32_mod_eq_zero (a k : Nat) :
    (a &&& mask32 k) % 2 ^ k = 0 := by
  apply mod_two_pow_eq_zero_of_testBit
  intro i hi
  rw [Nat.testBit_and, mask32_testBit_low k i hi, Bool.and_false]

theorem mod_eq_zero_of_pow_dvd (e x : Nat) (h : 2 ^ e ∣ x) :
    x % 2 ^ e = 0 := by
  obtain ⟨c, hc⟩ := h
  rw [hc, Nat.mul_mod_right]

theorem applyV6Mask_mod_eq_zero (p a : Nat) (hp : p ≤ 128) :
    applyV6Mask p a % 2 ^ (128 - p) = 0 := by
  unfold applyV6Mask
  split_ifs with h0 h32 h64 h96
  · simp
  · apply mod_eq_zero_of_pow_dvd
    have hd := Nat.dvd_of_mod_eq_zero
      (and_mask32_mod_eq_zero (a / 2 ^ 96 % 2 ^ 32) (32 - p))
    have he : 128 - p = (32 - p) + 96 := by omega
    rw [he, pow_add]
    exact mul_dvd_mul hd dvd_rfl
  · apply mod_eq_zero_of_pow_dvd
    refine Nat.dvd_add ?_ ?_
    · exact Dvd.dvd.mul_left (pow_dvd_pow 2 (by omega)) _
    · have hd := Nat.dvd_of_mod_eq_zero
        (and_mask32_mod_eq_zero (a / 2 ^ 64 % 2 ^ 32) (64 - p))
      have he : 128 - p = (64 - p) + 64 := by omega
      rw [he, pow_add]
      exact mul_dvd_mul hd dvd_rfl
  · apply mod_eq_zero_of_pow_dvd
    refine Nat.dvd_add (Nat.dvd_add ?_ ?_) ?_
    · exact Dvd.dvd.mul_left (pow_dvd_pow 2 (by omega)) _
    · exact Dvd.dvd.mul_left (pow_dvd_pow 2 (by omega)) _
    · have hd := Nat.dvd_of_mod_eq_zero
        (and_mask32_mod_eq_zero (a / 2 ^ 32 % 2 ^ 32) (96 - p))
      have he : 128 - p = (96 - p) + 32 := by omega
      rw [he, pow_add]
      exact mul_dvd_mul hd dvd_rfl
  · apply mod_eq_zero_of_pow_dvd
    refine Nat.dvd_add (Nat.dvd_add (Nat.dvd_add ?_ ?_) ?_) ?_
    · exact Dvd.dvd.mul_left (pow_dvd_pow 2 (by omega)) _
    · exact Dvd.dvd.mul_left (pow_dvd_pow 2 (by omega)) _
    · exact Dvd.dvd.mul_left (pow_dvd_pow 2 (by omega)) _
    · exact Nat.dvd_of_mod_eq_zero
        (and_mask32_mod_eq_zero (a % 2 ^ 32) (128 - p))

theorem ipv4Dest_spec (a4 : Nat) (p0 : Int) :
    (ipv4Dest a4 p0).af = AF.inet ∧
    0 ≤ (ipv4Dest a4 p0).prefix_len ∧ (ipv4Dest a4 p0).prefix_len ≤ 32 ∧
    (ipv4Dest a4 p0).addr %
      2 ^ Int.toNat (32 - (ipv4Dest a4 p0).prefix_len) = 0 ∧
    (p0 = 32 → (ipv4Dest a4 p0).prefix_len = 32) := by
  unfold ipv4Dest clamp4
  by_cases h0 : p0 ≤ 0
  · rw [if_pos h0]
    exact ⟨rfl, le_refl 0, by norm_num, by simp, fun he => by omega⟩
  · rw [if_neg h0]
    by_cases h32 : 32 < p0
    · rw [if_pos h32]
      refine ⟨rfl, by norm_num, by norm_num, ?_, fun _ => rfl⟩
      show (a4 &&& mask32 (32 - Int.toNat 32)) %
        2 ^ Int.toNat ((32 : Int) - 32) = 0
      have he : Int.toNat ((32 : Int) - 32) = 32 - Int.toNat (32 : Int) := by
        omega
      rw [he]
      exact and_mask32_mod_eq_zero a4 (32 - Int.toNat (32 : Int))
    · rw [if_neg h32]
      refine ⟨rfl, show (0 : Int) ≤ p0 by omega, show p0 ≤ (32 : Int) by omega,
        ?_, fun he => he⟩
      show (a4 &&& mask32 (32 - Int.toNat p0)) %
        2 ^ Int.toNat ((32 : Int) - p0) = 0
      have he : Int.toNat ((32 : Int) - p0) = 32 - Int.toNat p0 := by omega
      rw [he]
      exact and_mask32_mod_eq_zero a4 (32 - Int.toNat p0)

theorem ipv6Dest_spec (a6 : Nat) (p0 : Int) :
    (ipv6Dest a6 p0).af = AF.inet6 ∧
    0 ≤ (ipv6Dest a6 p0).prefix_len ∧ (ipv6Dest a6 p0).prefix_len ≤ 128 ∧
    (ipv6Dest a6 p0).addr %
      2 ^ Int.toNat (128 - (ipv6Dest a6 p0).prefix_len) = 0 ∧
    (p0 = 128 → (ipv6Dest a6 p0).prefix_len = 128) := by
  unfold ipv6Dest clamp6
  refine ⟨rfl, ?_, ?_, ?_, ?_⟩
  · show (0 : Int) ≤ (if p0 < 0 then 0 else if 128 < p0 then 128 else p0)
    split_ifs <;> omega
  · show (if p0 < 0 then 0 else if 128 < p0 then 128 else p0) ≤ (128 : Int)
    split_ifs <;> omega
  · show applyV6Mask
      (Int.toNat (if p0 < 0 then 0 else if 128 < p0 then 128 else p0)) a6 %
      2 ^ Int.toNat
        ((128 : Int) - (if p0 < 0 then 0 else if 128 < p0 then 128 else p0))
      = 0
    have he : Int.toNat
        ((128 : Int) - (if p0 < 0 then 0 else if 128 < p0 then 128 else p0)) =
        128 - Int.toNat (if p0 < 0 then 0 else if 128 < p0 then 128 else p0) := by
      split_ifs <;> omega
    rw [he]
    apply applyV6Mask_mod_eq_zero
    split_ifs <;> omega
  · intro he
    show (if p0 < 0 then 0 else if 128 < p0 then 128 else p0) = (128 : Int)
    split_ifs <;> omega

theorem splitAtSlash_no_slash (cs : List Char) (h : '/' ∉ cs) :
    splitAtSlash cs = (cs, none) := by
  induction cs with
  | nil => rfl
  | cons c rest ih =>
    have h1 : ¬ c = '/' := by
      intro hc
      apply h
      rw [hc]
      exact List.mem_cons_self _ _
    have h2 : '/' ∉ rest := fun hm => h (List.mem_cons_of_mem _ hm)
    simp [splitAtSlash, h1, ih h2]

theorem splitAtSlash_fst_no_slash (cs : List Char) :
    '/' ∉ (splitAtSlash cs).1 := by
  induction cs with
  | nil => simp [splitAtSlash]
  | cons c rest ih =>
    by_cases hc : c = '/'
    · simp [splitAtSlash, hc]
    · simp only [splitAtSlash, if_neg hc]
      intro hmem
      rcases List.mem_cons.mp hmem with h1 | h2
      · exact hc h1.symm
      · exact ih h2

/-- C5: on every successfully parsed input the destination parser returns
the address masked to the prefix with the host bits zeroed, the prefix
clamped into [0, width], defaulting to the family's full width (32 for
IPv4, 128 for IPv6) when the input contains no '/'; and the spec's three
concrete examples hold. -/
theorem c5_parse_dest_masking :
    (∀ s d, parse_dest s = some d →
      0 ≤ d.prefix_len ∧ d.prefix_len ≤ famWidth d.af ∧
      d.addr % 2 ^ Int.toNat (famWidth d.af - d.prefix_len) = 0 ∧
      ('/' ∉ s.data → d.prefix_len = famWidth d.af)) ∧
    parse_dest "192.168.5.37/24" =
      some ⟨AF.inet, 24, bytesToNat [192, 168, 5, 0]⟩ ∧
    parse_dest "2001:db8::1/32" = some ⟨AF.inet6, 32, 0x20010db8 * 2 ^ 96⟩ ∧
    parse_dest "10.0.0.1" = some ⟨AF.inet, 32, bytesToNat [10, 0, 0, 1]⟩ := by
  refine ⟨?_, by decide, by decide, by decide⟩
  intro s d h
  unfold parse_dest at h
  cases h4 : inet_pton4 (splitAtSlash s.data).1 with
  | some a4 =>
    rw [h4] at h
    simp only [Option.some.injEq] at h
    subst h
    obtain ⟨haf, hlow, hhigh, hmask, hdef⟩ := ipv4Dest_spec a4
      (Option.getD (Option.bind (splitAtSlash s.data).2 sscanfInt) 32)
    simp only [haf, famWidth]
    refine ⟨hlow, hhigh, hmask, ?_⟩
    · intro hns
      apply hdef
      rw [splitAtSlash_no_slash s.data hns]
      rfl
  | none =>
    rw [h4] at h
    cases h6 : inet_pton6 (splitAtSlash s.data).1 with
    | some a6 =>
      rw [h6] at h
      simp only [Option.some.injEq] at h
      subst h
      obtain ⟨haf, hlow, hhigh, hmask, hdef⟩ := ipv6Dest_spec a6
        (Option.getD (Option.bind (splitAtSlash s.data).2 sscanfInt) 128)
      simp only [haf, famWidth]
      refine ⟨hlow, hhigh, hmask, ?_⟩
      · intro hns
        apply hdef
        rw [splitAtSlash_no_slash s.data hns]
        rfl
    | none =>
      rw [h6] at h
      exact absurd h (by simp)

/-- C10: an input containing a '/' whose suffix does not scan as an
integer is *not* rejected: it parses exactly as the address part alone
would (prefix defaulting to the family's full width); in particular
"10.0.0.1/" and "10.0.0.1/abc" both parse as 10.0.0.1/32. -/
theorem c10_bad_suffix_ignored :
    (∀ (s s' : String) (addrPart rest : List Char),
      splitAtSlash s.data = (addrPart, some rest) →
      s'.data = addrPart →
      sscanfInt rest = none →
      parse_dest s = parse_dest s') ∧
    parse_dest "10.0.0.1/" = some ⟨AF.inet, 32, bytesToNat [10, 0, 0, 1]⟩ ∧
    parse_dest "10.0.0.1/abc" =
      some ⟨AF.inet, 32, bytesToNat [10, 0, 0, 1]⟩ := by
  refine ⟨?_, by decide, by decide⟩
  intro s s' addrPart rest hsp hs' hscan
  have hfst : '/' ∉ addrPart := by
    have h1 := splitAtSlash_fst_no_slash s.data
    rw [hsp] at h1
    exact h1
  unfold parse_dest
  rw [hsp, hs', splitAtSlash_no_slash addrPart hfst]
  simp only [Option.some_bind, Option.none_bind, hscan]

/-! ## Claim C2: idempotence — lemmas about the add attempt -/

theorem addStep_cmds (env : RouteCmd → Bool) (st : ReconcileState)
    (r : DesiredRoute) (router : String) :
    (addStep env st r router).cmds = st.cmds ++
      [⟨RouteAction.add, r.address, r.prefixLength, router⟩] := by
  by_cases h : env ⟨RouteAction.add, r.address, r.prefixLength, router⟩ = true <;>
    simp [addStep, h]

theorem addStep_inactive_sub (env : RouteCmd → Bool) (st : ReconcileState)
    (r : DesiredRoute) (router : String) :
    ∀ kv, kv ∈ (addStep env st r router).inactive → kv ∈ st.inactive := by
  intro kv
  by_cases h : env ⟨RouteAction.add, r.address, r.prefixLength, router⟩ = true
  · simp only [addStep, if_pos h]
    exact fun hm => mem_of_mem_dictRemove _ _ _ hm
  · simp only [addStep, if_neg h]
    exact id

theorem addStep_inactive_none (env : RouteCmd → Bool) (st : ReconcileState)
    (r : DesiredRoute) (router : String) (k : String)
    (h : dictGet st.inactive k = none) :
    dictGet (addStep env st r router).inactive k = none := by
  by_cases he : env ⟨RouteAction.add, r.address, r.prefixLength, router⟩ = true
  · simp only [addStep, if_pos he]
    exact dictGet_remove_none _ _ _ h
  · simp only [addStep, if_neg he]
    exact h

theorem addStep_inactive_get_ne (env : RouteCmd → Bool) (st : ReconcileState)
    (r : DesiredRoute) (router : String) (k : String) (h : k ≠ keyOf r) :
    dictGet (addStep env st r router).inactive k = dictGet st.inactive k := by
  by_cases he : env ⟨RouteAction.add, r.address, r.prefixLength, router⟩ = true
  · simp only [addStep, if_pos he]
    exact dictGet_remove_ne _ _ _ h
  · simp only [addStep, if_neg he]

theorem addStep_active_mem (env : RouteCmd → Bool) (st : ReconcileState)
    (r : DesiredRoute) (router : String) :
    ∀ kv, kv ∈ (addStep env st r router).active →
      kv ∈ st.active ∨ kv = (keyOf r, mkRouteInfo r router) := by
  intro kv
  by_cases he : env ⟨RouteAction.add, r.address, r.prefixLength, router⟩ = true
  · simp only [addStep, if_pos he]
    exact fun hm => mem_of_mem_dictAdd _ _ _ kv hm
  · simp only [addStep, if_neg he]
    exact fun hm => Or.inl hm

theorem addStep_active_get_ne (env : RouteCmd → Bool) (st : ReconcileState)
    (r : DesiredRoute) (router : String) (k : String) (h : k ≠ keyOf r) :
    dictGet (addStep env st r router).active k = dictGet st.active k := by
  by_cases he : env ⟨RouteAction.add, r.address, r.prefixLength, router⟩ = true
  · simp only [addStep, if_pos he]
    exact dictGet_add_ne _ _ _ _ h
  · simp only [addStep, if_neg he]

theorem addStep_confirm (env : RouteCmd → Bool) (st : ReconcileState)
    (r : DesiredRoute) (router : String)
    (he : env ⟨RouteAction.add, r.address, r.prefixLength, router⟩ = true)
    (hget : dictGet st.active (keyOf r) = none) :
    dictGet (addStep env st r router).active (keyOf r) =
      some (mkRouteInfo r router) ∧
    dictGet (addStep env st r router).inactive (keyOf r) = none := by
  simp only [addStep, if_pos he]
  exact ⟨dictGet_add_self _ _ _ hget, dictGet_remove_self _ _⟩

/-! ## Claim C2 — lemmas about one loop iteration -/

theorem processDesired_cmds_append (env : RouteCmd → Bool)
    (r4 r6 : Option String) (st : ReconcileState) (r : DesiredRoute) :
    ∃ l, (processDesired env r4 r6 st r).cmds = st.cmds ++ l := by
  cases hrt : routerFor r4 r6 r with
  | none =>
    refine ⟨[], ?_⟩
    simp [processDesired, hrt]
  | some router =>
    cases hold : routerFieldAt st.active (keyOf r) with
    | some oldR =>
      by_cases heq : oldR = router
      · refine ⟨[], ?_⟩
        simp [processDesired, hrt, hold, heq]
      · refine ⟨[⟨RouteAction.delete, r.address, r.prefixLength, oldR⟩,
          ⟨RouteAction.add, r.address, r.prefixLength, router⟩], ?_⟩
        simp only [processDesired, hrt, hold, if_neg heq, addStep_cmds]
        simp
    | none =>
      refine ⟨[⟨RouteAction.add, r.address, r.prefixLength, router⟩], ?_⟩
      simp only [processDesired, hrt, hold, addStep_cmds]

theorem runDesired_cmds_append (env : RouteCmd → Bool)
    (r4 r6 : Option String) :
    ∀ (routes : List DesiredRoute) (st : ReconcileState),
    ∃ l, (runDesired env r4 r6 routes st).cmds = st.cmds ++ l := by
  intro routes
  induction routes with
  | nil => exact fun st => ⟨[], (List.append_nil _).symm⟩
  | cons r0 rest ih =>
    intro st
    obtain ⟨l1, h1⟩ := processDesired_cmds_append env r4 r6 st r0
    obtain ⟨l2, h2⟩ := ih (processDesired env r4 r6 st r0)
    refine ⟨l1 ++ l2, ?_⟩
    show (runDesired env r4 r6 rest (processDesired env r4 r6 st r0)).cmds = _
    rw [h2, h1, List.append_assoc]

theorem runDesired_cmds_mem (env : RouteCmd → Bool) (r4 r6 : Option String)
    (routes : List DesiredRoute) (st : ReconcileState) (c : RouteCmd)
    (h : c ∈ st.cmds) : c ∈ (runDesired env r4 r6 routes st).cmds := by
  obtain ⟨l, hl⟩ := runDesired_cmds_append env r4 r6 routes st
  rw [hl]
  exact List.mem_append_left _ h

theorem processDesired_inactive_sub (env : RouteCmd → Bool)
    (r4 r6 : Option String) (st : ReconcileState) (r : DesiredRoute) :
    ∀ kv, kv ∈ (processDesired env r4 r6 st r).inactive →
      kv ∈ st.inactive := by
  intro kv
  cases hrt : routerFor r4 r6 r with
  | none =>
    simp only [processDesired, hrt]
    exact id
  | some router =>
    cases hold : routerFieldAt st.active (keyOf r) with
    | some oldR =>
      by_cases heq : oldR = router
      · simp only [processDesired, hrt, hold, if_pos heq]
        exact fun h => mem_of_mem_dictRemove _ _ _ h
      · simp only [processDesired, hrt, hold, if_neg heq]
        intro h
        exact mem_of_mem_dictRemove _ _ _ (addStep_inactive_sub env _ r router kv h)
    | none =>
      simp only [processDesired, hrt, hold]
      exact fun h => addStep_inactive_sub env st r router kv h

theorem runDesired_inactive_sub (env : RouteCmd → Bool)
    (r4 r6 : Option String) :
    ∀ (routes : List DesiredRoute) (st : ReconcileState) kv,
    kv ∈ (runDesired env r4 r6 routes st).inactive → kv ∈ st.inactive := by
  intro routes
  induction routes with
  | nil => exact fun st kv => id
  | cons r0 rest ih =>
    intro st kv h
    exact processDesired_inactive_sub env r4 r6 st r0 kv
      (ih (processDesired env r4 r6 st r0) kv h)

theorem processDesired_inactive_none (env : RouteCmd → Bool)
    (r4 r6 : Option String) (st : ReconcileState) (r : DesiredRoute)
    (k : String) (h : dictGet st.inactive k = none) :
    dictGet (processDesired env r4 r6 st r).inactive k = none := by
  cases hrt : routerFor r4 r6 r with
  | none =>
    simp only [processDesired, hrt]
    exact h
  | some router =>
    cases hold : routerFieldAt st.active (keyOf r) with
    | some oldR =>
      by_cases heq : oldR = router
      · simp only [processDesired, hrt, hold, if_pos heq]
        exact dictGet_remove_none _ _ _ h
      · simp only [processDesired, hrt, hold, if_neg heq]
        exact addStep_inactive_none env _ r router k (dictGet_remove_none _ _ _ h)
    | none =>
      simp only [processDesired, hrt, hold]
      exact addStep_inactive_none env st r router k h

theorem runDesired_inactive_none (env : RouteCmd → Bool)
    (r4 r6 : Option String) :
    ∀ (routes : List DesiredRoute) (st : ReconcileState) (k : String),
    dictGet st.inactive k = none →
    dictGet (runDesired env r4 r6 routes st).inactive k = none := by
  intro routes
  induction routes with
  | nil => exact fun st k h => h
  | cons r0 rest ih =>
    intro st k h
    exact ih (processDesired env r4 r6 st r0) k
      (processDesired_inactive_none env r4 r6 st r0 k h)

theorem processDesired_active_mem (env : RouteCmd → Bool)
    (r4 r6 : Option String) (st : ReconcileState) (r : DesiredRoute) :
    ∀ kv, kv ∈ (processDesired env r4 r6 st r).active →
      kv ∈ st.active ∨ (routerFor r4 r6 r ≠ none ∧ kv.1 = keyOf r) := by
  intro kv
  cases hrt : routerFor r4 r6 r with
  | none =>
    simp only [processDesired, hrt]
    exact fun h => Or.inl h
  | some router =>
    cases hold : routerFieldAt st.active (keyOf r) with
    | some oldR =>
      by_cases heq : oldR = router
      · simp only [processDesired, hrt, hold, if_pos heq]
        exact fun h => Or.inl h
      · simp only [processDesired, hrt, hold, if_neg heq]
        intro h
        rcases addStep_active_mem env _ r router kv h with h1 | h1
        · left
          have h2 : kv ∈ (if env ⟨RouteAction.delete, r.address,
              r.prefixLength, oldR⟩ = true then
              dictRemove st.active (keyOf r) else st.active) := h1
          by_cases hd : env ⟨RouteAction.delete, r.address, r.prefixLength,
              oldR⟩ = true
          · rw [if_pos hd] at h2
            exact mem_of_mem_dictRemove _ _ _ h2
          · rw [if_neg hd] at h2
            exact h2
        · right
          exact ⟨by simp [hrt], by rw [h1]⟩
    | none =>
      simp only [processDesired, hrt, hold]
      intro h
      rcases addStep_active_mem env st r router kv h with h1 | h1
      · exact Or.inl h1
      · exact Or.inr ⟨by simp [hrt], by rw [h1]⟩

theorem processDesired_active_get_ne (env : RouteCmd → Bool)
    (r4 r6 : Option String) (st : ReconcileState) (r : DesiredRoute)
    (k : String) (h : k ≠ keyOf r) :
    dictGet (processDesired env r4 r6 st r).active k =
      dictGet st.active k := by
  cases hrt : routerFor r4 r6 r with
  | none => simp [processDesired, hrt]
  | some router =>
    cases hold : routerFieldAt st.active (keyOf r) with
    | some oldR =>
      by_cases heq : oldR = router
      · simp [processDesired, hrt, hold, heq]
      · simp only [processDesired, hrt, hold, if_neg heq]
        rw [addStep_active_get_ne env _ r router k h]
        show dictGet (if env ⟨RouteAction.delete, r.address, r.prefixLength,
          oldR⟩ = true then dictRemove st.active (keyOf r) else st.active) k =
          dictGet st.active k
        by_cases hd : env ⟨RouteAction.delete, r.address, r.prefixLength,
            oldR⟩ = true
        · rw [if_pos hd]
          exact dictGet_remove_ne _ _ _ h
        · rw [if_neg hd]
    | none =>
      simp only [processDesired, hrt, hold]
      exact addStep_active_get_ne env st r router k h

theorem processDesired_inactive_get_ne (env : RouteCmd → Bool)
    (r4 r6 : Option String) (st : ReconcileState) (r : DesiredRoute)
    (k : String) (h : k ≠ keyOf r) :
    dictGet (processDesired env r4 r6 st r).inactive k =
      dictGet st.inactive k := by
  cases hrt : routerFor r4 r6 r with
  | none => simp [processDesired, hrt]
  | some router =>
    cases hold : routerFieldAt st.active (keyOf r) with
    | some oldR =>
      by_cases heq : oldR = router
      · simp only [processDesired, hrt, hold, if_pos heq]
        exact dictGet_remove_ne _ _ _ h
      · simp only [processDesired, hrt, hold, if_neg heq]
        rw [addStep_inactive_get_ne env _ r router k h]
        exact dictGet_remove_ne _ _ _ h
    | none =>
      simp only [processDesired, hrt, hold]
      exact addStep_inactive_get_ne env st r router k h

theorem processDesired_preserves_router (env : RouteCmd → Bool)
    (r4 r6 : Option String) (st : ReconcileState) (r : DesiredRoute)
    (k : String) (g : String)
    (hk : routerFieldAt st.active k = some g)
    (hr : keyOf r = k → routerFor r4 r6 r = some g) :
    routerFieldAt (processDesired env r4 r6 st r).active k = some g := by
  by_cases hkk : keyOf r = k
  · subst hkk
    have hg := hr rfl
    simp only [processDesired, hg, hk, if_pos rfl]
    exact hk
  · unfold routerFieldAt at hk ⊢
    rw [processDesired_active_get_ne env r4 r6 st r k
      (fun hc => hkk hc.symm)]
    exact hk

theorem runDesired_preserves_router (env : RouteCmd → Bool)
    (r4 r6 : Option String) :
    ∀ (routes : List DesiredRoute) (st : ReconcileState) (k : String)
      (g : String),
    routerFieldAt st.active k = some g →
    (∀ r', r' ∈ routes → keyOf r' = k → routerFor r4 r6 r' = some g) →
    routerFieldAt (runDesired env r4 r6 routes st).active k = some g := by
  intro routes
  induction routes with
  | nil => exact fun st k g hk _ => hk
  | cons r0 rest ih =>
    intro st k g hk hr
    exact ih (processDesired env r4 r6 st r0) k g
      (processDesired_preserves_router env r4 r6 st r0 k g hk
        (hr r0 (List.mem_cons_self _ _)))
      (fun r' hm hkk => hr r' (List.mem_cons_of_mem _ hm) hkk)

theorem processDesired_step_confirm (env : RouteCmd → Bool)
    (r4 r6 : Option String) (st : ReconcileState) (r : DesiredRoute)
    (g : String) (hg : routerFor r4 r6 r = some g)
    (hrs : ∀ kv, kv ∈ st.active → Option.isSome kv.2.router = true)
    (hsucc : ∀ c, c ∈ (processDesired env r4 r6 st r).cmds → env c = true) :
    routerFieldAt (processDesired env r4 r6 st r).active (keyOf r) = some g ∧
    dictGet (processDesired env r4 r6 st r).inactive (keyOf r) = none := by
  cases hold : routerFieldAt st.active (keyOf r) with
  | some oldR =>
    by_cases heq : oldR = g
    · subst heq
      simp only [processDesired, hg, hold, if_pos rfl]
      exact ⟨hold, dictGet_remove_self _ _⟩
    · have hcm : (processDesired env r4 r6 st r).cmds = st.cmds ++
          [⟨RouteAction.delete, r.address, r.prefixLength, oldR⟩,
           ⟨RouteAction.add, r.address, r.prefixLength, g⟩] := by
        simp only [processDesired, hg, hold, if_neg heq, addStep_cmds]
        simp
      have hdel : env ⟨RouteAction.delete, r.address, r.prefixLength, oldR⟩ =
          true := by
        apply hsucc
        rw [hcm]
        simp
      have hadd : env ⟨RouteAction.add, r.address, r.prefixLength, g⟩ =
          true := by
        apply hsucc
        rw [hcm]
        simp
      have hget : dictGet (if env ⟨RouteAction.delete, r.address,
          r.prefixLength, oldR⟩ = true then dictRemove st.active (keyOf r)
          else st.active) (keyOf r) = none := by
        rw [if_pos hdel]
        exact dictGet_remove_self _ _
      simp only [processDesired, hg, hold, if_neg heq]
      have hc := addStep_confirm env
        { active := if env ⟨RouteAction.delete, r.address, r.prefixLength,
            oldR⟩ = true then dictRemove st.active (keyOf r) else st.active,
          inactive := dictRemove st.inactive (keyOf r),
          cmds := st.cmds ++
            [⟨RouteAction.delete, r.address, r.prefixLength, oldR⟩] }
        r g hadd hget
      refine ⟨?_, hc.2⟩
      unfold routerFieldAt
      rw [hc.1]
      rfl
  | none =>
    have hget : dictGet st.active (keyOf r) = none := by
      cases hga : dictGet st.active (keyOf r) with
      | none => rfl
      | some e =>
        exfalso
        have h1 := hrs (keyOf r, e) (mem_of_dictGet _ _ _ hga)
        unfold routerFieldAt at hold
        rw [hga] at hold
        simp only [Option.some_bind] at hold
        rw [hold] at h1
        simp at h1
    have hcm : (processDesired env r4 r6 st r).cmds = st.cmds ++
        [⟨RouteAction.add, r.address, r.prefixLength, g⟩] := by
      simp only [processDesired, hg, hold, addStep_cmds]
    have hadd : env ⟨RouteAction.add, r.address, r.prefixLength, g⟩ =
        true := by
      apply hsucc
      rw [hcm]
      simp
    simp only [processDesired, hg, hold]
    have hc := addStep_confirm env st r g hadd hget
    refine ⟨?_, hc.2⟩
    unfold routerFieldAt
    rw [hc.1]
    rfl

theorem addStep_router_some (env : RouteCmd → Bool) (st : ReconcileState)
    (r : DesiredRoute) (router : String)
    (h : ∀ kv, kv ∈ st.active → Option.isSome kv.2.router = true) :
    ∀ kv, kv ∈ (addStep env st r router).active →
      Option.isSome kv.2.router = true := by
  intro kv hm
  rcases addStep_active_mem env st r router kv hm with h1 | h1
  · exact h kv h1
  · rw [h1]
    rfl

theorem processDesired_router_some (env : RouteCmd → Bool)
    (r4 r6 : Option String) (st : ReconcileState) (r : DesiredRoute)
    (h : ∀ kv, kv ∈ st.active → Option.isSome kv.2.router = true) :
    ∀ kv, kv ∈ (processDesired env r4 r6 st r).active →
      Option.isSome kv.2.router = true := by
  intro kv
  cases hrt : routerFor r4 r6 r with
  | none =>
    simp only [processDesired, hrt]
    exact h kv
  | some router =>
    cases hold : routerFieldAt st.active (keyOf r) with
    | some oldR =>
      by_cases heq : oldR = router
      · simp only [processDesired, hrt, hold, if_pos heq]
        exact h kv
      · simp only [processDesired, hrt, hold, if_neg heq]
        apply addStep_router_some
        intro kv2 hm2
        have h2 : kv2 ∈ (if env ⟨RouteAction.delete, r.address,
            r.prefixLength, oldR⟩ = true then
            dictRemove st.active (keyOf r) else st.active) := hm2
        by_cases hd : env ⟨RouteAction.delete, r.address, r.prefixLength,
            oldR⟩ = true
        · rw [if_pos hd] at h2
          exact h kv2 (mem_of_mem_dictRemove _ _ _ h2)
        · rw [if_neg hd] at h2
          exact h kv2 h2
    | none =>
      simp only [processDesired, hrt, hold]
      exact addStep_router_some env st r router h kv

theorem runDesired_router_some (env : RouteCmd → Bool)
    (r4 r6 : Option String) :
    ∀ (routes : List DesiredRoute) (st : ReconcileState),
    (∀ kv, kv ∈ st.active → Option.isSome kv.2.router = true) →
    ∀ kv, kv ∈ (runDesired env r4 r6 routes st).active →
      Option.isSome kv.2.router = true := by
  intro routes
  induction routes with
  | nil => exact fun st h => h
  | cons r0 rest ih =>
    intro st h
    exact ih (processDesired env r4 r6 st r0)
      (processDesired_router_some env r4 r6 st r0 h)

theorem routerFor_congr (r4 r6 : Option String) (r r' : DesiredRoute)
    (h : r.addressFamily = r'.addressFamily) :
    routerFor r4 r6 r = routerFor r4 r6 r' := by
  simp [routerFor, h]

/-- After the loop, every desired route whose family resolved has an entry
with the resolved router under its key and its key is gone from the
candidate-for-removal set — provided every spawned command succeeded,
the starting snapshot's entries all carry a router field, and no two
desired routes share a key across different families. -/
theorem runDesired_confirms (env : RouteCmd → Bool) (r4 r6 : Option String) :
    ∀ (routes : List DesiredRoute) (st : ReconcileState),
    (∀ c, c ∈ (runDesired env r4 r6 routes st).cmds → env c = true) →
    (∀ r r', r ∈ routes → r' ∈ routes → keyOf r = keyOf r' →
      r.addressFamily = r'.addressFamily) →
    (∀ kv, kv ∈ st.active → Option.isSome kv.2.router = true) →
    ∀ r, r ∈ routes → ∀ g, routerFor r4 r6 r = some g →
      routerFieldAt (runDesired env r4 r6 routes st).active (keyOf r) =
        some g ∧
      dictGet (runDesired env r4 r6 routes st).inactive (keyOf r) = none := by
  intro routes
  induction routes with
  | nil => intro st _ _ _ r hr; simp at hr
  | cons r0 rest ih =>
    intro st hsucc hcons hrs r hr g hg
    have hstep_succ : ∀ c, c ∈ (processDesired env r4 r6 st r0).cmds →
        env c = true := by
      intro c hc
      exact hsucc c (runDesired_cmds_mem env r4 r6 rest _ c hc)
    have hrs1 := processDesired_router_some env r4 r6 st r0 hrs
    rcases List.mem_cons.mp hr with hr0 | hrest
    · subst hr0
      obtain ⟨hconf, hinact⟩ := processDesired_step_confirm env r4 r6 st r g
        hg hrs hstep_succ
      constructor
      · apply runDesired_preserves_router env r4 r6 rest _ (keyOf r) g hconf
        intro r' hm hkk
        rw [routerFor_congr r4 r6 r' r
          (hcons r' r (List.mem_cons_of_mem _ hm) (List.mem_cons_self _ _)
            (hkk.trans rfl) |>.symm ▸ rfl)]
        exact hg
      · exact runDesired_inactive_none env r4 r6 rest _ (keyOf r) hinact
    · exact ih (processDesired env r4 r6 st r0) hsucc
        (fun a b ha hb => hcons a b (List.mem_cons_of_mem _ ha)
          (List.mem_cons_of_mem _ hb))
        hrs1 r hrest g hg

/-- One iteration keeps the invariant that every active entry's key is
still a candidate for removal or belongs to a confirmed desired route. -/
theorem processDesired_active_cover (env : RouteCmd → Bool)
    (r4 r6 : Option String) (st : ReconcileState) (r : DesiredRoute)
    (Q : String → Prop)
    (h : ∀ kv, kv ∈ st.active → dictGet st.inactive kv.1 ≠ none ∨ Q kv.1) :
    ∀ kv, kv ∈ (processDesired env r4 r6 st r).active →
      dictGet (processDesired env r4 r6 st r).inactive kv.1 ≠ none ∨
      Q kv.1 ∨ (routerFor r4 r6 r ≠ none ∧ kv.1 = keyOf r) := by
  intro kv hkv
  rcases processDesired_active_mem env r4 r6 st r kv hkv with hin | hnew
  · rcases h kv hin with hne | hq
    · by_cases hkk : kv.1 = keyOf r
      · cases hrt : routerFor r4 r6 r with
        | none =>
          left
          have hid : processDesired env r4 r6 st r = st := by
            simp [processDesired, hrt]
          rw [hid]
          exact hne
        | some router =>
          right; right
          exact ⟨by simp [hrt], hkk⟩
      · left
        rw [processDesired_inactive_get_ne env r4 r6 st r kv.1 hkk]
        exact hne
    · right; left; exact hq
  · right; right; exact hnew

theorem runDesired_active_cover (env : RouteCmd → Bool)
    (r4 r6 : Option String) :
    ∀ (routes : List DesiredRoute) (st : ReconcileState) (Q : String → Prop),
    (∀ kv, kv ∈ st.active → dictGet st.inactive kv.1 ≠ none ∨ Q kv.1) →
    ∀ kv, kv ∈ (runDesired env r4 r6 routes st).active →
      dictGet (runDesired env r4 r6 routes st).inactive kv.1 ≠ none ∨
      Q kv.1 ∨
      ∃ r, r ∈ routes ∧ routerFor r4 r6 r ≠ none ∧ kv.1 = keyOf r := by
  intro routes
  induction routes with
  | nil =>
    intro st Q h kv hkv
    rcases h kv hkv with h1 | h1
    · exact Or.inl h1
    · exact Or.inr (Or.inl h1)
  | cons r0 rest ih =>
    intro st Q h kv hkv
    have h1 := processDesired_active_cover env r4 r6 st r0 Q h
    have h2 := ih (processDesired env r4 r6 st r0)
      (fun x => Q x ∨ (routerFor r4 r6 r0 ≠ none ∧ x = keyOf r0)) h1 kv hkv
    rcases h2 with hne | hq | ⟨r, hr, hrt, hk⟩
    · exact Or.inl hne
    · rcases hq with hq | ⟨hrt, hk⟩
      · exact Or.inr (Or.inl hq)
      · exact Or.inr (Or.inr ⟨r0, List.mem_cons_self _ _, hrt, hk⟩)
    · exact Or.inr (Or.inr ⟨r, List.mem_cons_of_mem _ hr, hrt, hk⟩)

/-! ## Claim C2 — lemmas about orphan cleanup -/

theorem remove_routes_fst (env : RouteCmd → Bool) (active : Dict RouteInfo)
    (k : String) (route : RouteInfo) :
    (remove_routes env active k route).1 = dictRemove active k ∨
    (remove_routes env active k route).1 = active := by
  obtain ⟨f, a, p, r⟩ := route
  cases a with
  | none => cases p <;> cases r <;> exact Or.inl rfl
  | some av =>
    cases p with
    | none => cases r <;> exact Or.inl rfl
    | some pv =>
      cases r with
      | none => exact Or.inl rfl
      | some rv =>
        by_cases henv : env ⟨RouteAction.delete, av, pv, rv⟩ = true
        · left
          simp [remove_routes, henv]
        · right
          simp [remove_routes, henv]

theorem remove_routes_removes (env : RouteCmd → Bool)
    (active : Dict RouteInfo) (k : String) (route : RouteInfo)
    (h : ∀ c, c ∈ (remove_routes env active k route).2 → env c = true) :
    dictGet (remove_routes env active k route).1 k = none := by
  obtain ⟨f, a, p, r⟩ := route
  cases a with
  | none => cases p <;> cases r <;> exact dictGet_remove_self _ _
  | some av =>
    cases p with
    | none => cases r <;> exact dictGet_remove_self _ _
    | some pv =>
      cases r with
      | none => exact dictGet_remove_self _ _
      | some rv =>
        have henv : env ⟨RouteAction.delete, av, pv, rv⟩ = true := by
          apply h
          simp [remove_routes]
        simp only [remove_routes, henv, if_pos rfl]
        exact dictGet_remove_self _ _

theorem removeAll_get_none (env : RouteCmd → Bool) :
    ∀ (inactive active : Dict RouteInfo) (k : String),
    dictGet active k = none →
    dictGet (removeAll env inactive active).1 k = none := by
  intro inactive
  induction inactive with
  | nil => exact fun active k h => h
  | cons kv rest ih =>
    intro active k h
    show dictGet (removeAll env rest
      (remove_routes env active kv.1 kv.2).1).1 k = none
    apply ih
    rcases remove_routes_fst env active kv.1 kv.2 with h1 | h1
    · rw [h1]
      exact dictGet_remove_none _ _ _ h
    · rw [h1]
      exact h

theorem removeAll_removes (env : RouteCmd → Bool) :
    ∀ (inactive active : Dict RouteInfo),
    (∀ c, c ∈ (removeAll env inactive active).2 → env c = true) →
    ∀ kv, kv ∈ inactive →
      dictGet (removeAll env inactive active).1 kv.1 = none := by
  intro inactive
  induction inactive with
  | nil =>
    intro active _ kv hkv
    simp at hkv
  | cons hd rest ih =>
    intro active hsucc kv hkv
    have hcm : (removeAll env (hd :: rest) active).2 =
        (remove_routes env active hd.1 hd.2).2 ++
        (removeAll env rest (remove_routes env active hd.1 hd.2).1).2 := rfl
    rcases List.mem_cons.mp hkv with h1 | h1
    · subst h1
      show dictGet (removeAll env rest
        (remove_routes env active kv.1 kv.2).1).1 kv.1 = none
      apply removeAll_get_none
      apply remove_routes_removes
      intro c hc
      apply hsucc
      rw [hcm]
      exact List.mem_append_left _ hc
    · show dictGet (removeAll env rest
        (remove_routes env active hd.1 hd.2).1).1 kv.1 = none
      apply ih
      · intro c hc
        apply hsucc
        rw [hcm]
        exact List.mem_append_right _ hc
      · exact h1

theorem removeAll_preserves (env : RouteCmd → Bool) :
    ∀ (inactive active : Dict RouteInfo) (k : String),
    dictGet inactive k = none →
    dictGet (removeAll env inactive active).1 k = dictGet active k := by
  intro inactive
  induction inactive with
  | nil => exact fun active k _ => rfl
  | cons hd rest ih =>
    intro active k h
    obtain ⟨k0, v0⟩ := hd
    have h1 : ¬ k0 = k := by
      intro hc
      simp [dictGet, hc] at h
    have h2 : dictGet rest k = none := by
      simpa [dictGet, h1] using h
    show dictGet (removeAll env rest
      (remove_routes env active k0 v0).1).1 k = dictGet active k
    rw [ih (remove_routes env active k0 v0).1 k h2]
    rcases remove_routes_fst env active k0 v0 with hf | hf
    · rw [hf]
      exact dictGet_remove_ne _ _ _ (fun hc => h1 hc.symm)
    · rw [hf]

/-- A pass whose starting snapshot already has, for every resolvable
desired route, an entry with the resolved router under the route's key,
takes the already-installed branch everywhere: the active snapshot and
the command list are untouched, and every such key leaves the
candidate-for-removal set. -/
theorem runDesired_coherent (env : RouteCmd → Bool) (r4 r6 : Option String) :
    ∀ (routes : List DesiredRoute) (st : ReconcileState),
    (∀ r, r ∈ routes → ∀ g, routerFor r4 r6 r = some g →
      routerFieldAt st.active (keyOf r) = some g) →
    (runDesired env r4 r6 routes st).active = st.active ∧
    (runDesired env r4 r6 routes st).cmds = st.cmds ∧
    (∀ kv, kv ∈ (runDesired env r4 r6 routes st).inactive →
      kv ∈ st.inactive) ∧
    (∀ r, r ∈ routes → routerFor r4 r6 r ≠ none →
      dictGet (runDesired env r4 r6 routes st).inactive (keyOf r) = none) := by
  intro routes
  induction routes with
  | nil =>
    intro st _
    exact ⟨rfl, rfl, fun kv => id,
      fun r hr _ => absurd hr (List.not_mem_nil r)⟩
  | cons r0 rest ih =>
    intro st hc
    cases hrt : routerFor r4 r6 r0 with
    | none =>
      have hid : processDesired env r4 r6 st r0 = st := by
        simp [processDesired, hrt]
      have hstep : runDesired env r4 r6 (r0 :: rest) st =
          runDesired env r4 r6 rest st := by
        show runDesired env r4 r6 rest (processDesired env r4 r6 st r0) = _
        rw [hid]
      rw [hstep]
      have ih2 := ih st (fun r hr => hc r (List.mem_cons_of_mem _ hr))
      refine ⟨ih2.1, ih2.2.1, ih2.2.2.1, ?_⟩
      intro r hr hrn
      rcases List.mem_cons.mp hr with h1 | h1
      · subst h1
        exact absurd hrt hrn
      · exact ih2.2.2.2 r h1 hrn
    | some g =>
      have hc0 := hc r0 (List.mem_cons_self _ _) g hrt
      have hstep : processDesired env r4 r6 st r0 =
          { st with inactive := dictRemove st.inactive (keyOf r0) } := by
        simp [processDesired, hrt, hc0]
      have hstA : (processDesired env r4 r6 st r0).active = st.active := by
        rw [hstep]
      have ih2 := ih (processDesired env r4 r6 st r0)
        (fun r hr g' hg' => by
          rw [hstA]
          exact hc r (List.mem_cons_of_mem _ hr) g' hg')
      have hrun : runDesired env r4 r6 (r0 :: rest) st =
          runDesired env r4 r6 rest (processDesired env r4 r6 st r0) := rfl
      rw [hrun]
      refine ⟨?_, ?_, ?_, ?_⟩
      · rw [ih2.1, hstA]
      · rw [ih2.2.1, hstep]
      · intro kv hkv
        have h1 := ih2.2.2.1 kv hkv
        rw [hstep] at h1
        exact mem_of_mem_dictRemove _ _ _ h1
      · intro r hr hrn
        rcases List.mem_cons.mp hr with h1 | h1
        · subst h1
          apply runDesired_inactive_none
          rw [hstep]
          exact dictGet_remove_self _ _
        · exact ih2.2.2.2 r h1 hrn

/-- C2 amended: with no intervening change to desired routes, gateway state
or the persisted snapshot, the second call spawns no route command —
provided every route command spawned by the first call succeeded, every
entry of the prior snapshot carries a router field, and no two desired
routes of the service map to the same key with different address families.
(The counterexample shows the success proviso is necessary: a failed add
is retried, i.e. spawned again, by the second call.) -/
theorem c2_amended_idempotent (env : RouteCmd → Bool)
    (staticRoutes : Option (Dict (List DesiredRoute))) (sid : String)
    (snapshot : Option (Dict RouteInfo)) (s4 s6 : Option ServiceState)
    (res1 : ReconcileResult)
    (h1 : setup_routes_for_service env staticRoutes sid snapshot s4 s6 =
      Except.ok res1)
    (hsucc : ∀ c, c ∈ res1.cmds → env c = true)
    (hrs : ∀ kv, kv ∈ Option.getD snapshot [] →
      Option.isSome (RouteInfo.router kv.2) = true)
    (hcons : ∀ r r', r ∈ getDesiredRoutes staticRoutes sid →
      r' ∈ getDesiredRoutes staticRoutes sid → keyOf r = keyOf r' →
      r.addressFamily = r'.addressFamily)
    (res2 : ReconcileResult)
    (h2 : setup_routes_for_service env staticRoutes sid
      (match res1.persisted with
       | some snap => some snap
       | none => snapshot) s4 s6 = Except.ok res2) :
    res2.cmds = [] := by
  cases staticRoutes with
  | none =>
    simp only [setup_routes_for_service, Except.ok.injEq] at h1
    rw [← h1] at h2
    simp only [setup_routes_for_service, Except.ok.injEq] at h2
    rw [← h2]
  | some sr =>
    cases hroutes : dictGet sr sid with
    | none =>
      simp only [setup_routes_for_service, hroutes, Except.ok.injEq] at h1
      rw [← h1] at h2
      simp only [setup_routes_for_service, hroutes, Except.ok.injEq] at h2
      rw [← h2]
    | some routes =>
      cases hr4 : resolveRouter "IPv4.Router=" s4 with
      | error e =>
        simp only [setup_routes_for_service, hroutes, hr4] at h1
        exact Except.noConfusion h1
      | ok r4 =>
        cases hr6 : resolveRouter "IPv6.Router=" s6 with
        | error e =>
          simp only [setup_routes_for_service, hroutes, hr4, hr6] at h1
          exact Except.noConfusion h1
        | ok r6 =>
          simp only [setup_routes_for_service, hroutes, hr4, hr6,
            Except.ok.injEq] at h1 h2
          rw [← h1] at hsucc h2
          have hgd : getDesiredRoutes (some sr) sid = routes := by
            simp [getDesiredRoutes, hroutes]
          rw [hgd] at hcons
          -- state after the first pass
          set A0 : Dict RouteInfo := Option.getD snapshot [] with hA0
          set st1 : ReconcileState :=
            runDesired env r4 r6 routes ⟨A0, A0, []⟩ with hst1
          set fin1 : Dict RouteInfo × List RouteCmd :=
            removeAll env st1.inactive st1.active with hfin1
          have hsucc_loop : ∀ c, c ∈ st1.cmds → env c = true := by
            intro c hc
            apply hsucc
            exact List.mem_append_left _ hc
          have hsucc_rm : ∀ c, c ∈ fin1.2 → env c = true := by
            intro c hc
            apply hsucc
            exact List.mem_append_right _ hc
          have hrs0 : ∀ kv, kv ∈ (⟨A0, A0, []⟩ : ReconcileState).active →
              Option.isSome kv.2.router = true := hrs
          have hB := runDesired_confirms env r4 r6 routes ⟨A0, A0, []⟩
            hsucc_loop hcons hrs0
          -- coherence of the persisted snapshot fin1.1
          have hCoh1 : ∀ r, r ∈ routes → ∀ g, routerFor r4 r6 r = some g →
              routerFieldAt fin1.1 (keyOf r) = some g := by
            intro r hr g hg
            obtain ⟨hconf, hinact⟩ := hB r hr g hg
            unfold routerFieldAt
            rw [removeAll_preserves env st1.inactive st1.active (keyOf r)
              hinact]
            exact hconf
          have hCoh2 : ∀ k v, dictGet fin1.1 k = some v →
              ∃ r, r ∈ routes ∧ routerFor r4 r6 r ≠ none ∧ k = keyOf r := by
            intro k v hget
            have hnotin : dictGet st1.inactive k = none := by
              cases hgi : dictGet st1.inactive k with
              | none => rfl
              | some w =>
                exfalso
                have hmem := mem_of_dictGet _ _ _ hgi
                have := removeAll_removes env st1.inactive st1.active
                  hsucc_rm (k, w) hmem
                rw [this] at hget
                exact Option.noConfusion hget
            rw [removeAll_preserves env st1.inactive st1.active k hnotin]
              at hget
            have hmem := mem_of_dictGet _ _ _ hget
            have hcover := runDesired_active_cover env r4 r6 routes
              ⟨A0, A0, []⟩ (fun _ => False)
              (fun kv hkv => Or.inl (dictGet_ne_none_of_mem _ _ _ hkv))
              (k, v) hmem
            rcases hcover with hne | hf | ⟨r, hr, hrt, hk⟩
            · exact absurd hnotin hne
            · exact hf.elim
            · exact ⟨r, hr, hrt, hk⟩
          -- the second pass
          set st2 : ReconcileState :=
            runDesired env r4 r6 routes ⟨fin1.1, fin1.1, []⟩ with hst2
          have hcoh := runDesired_coherent env r4 r6 routes
            ⟨fin1.1, fin1.1, []⟩ hCoh1
          have hinact2 : st2.inactive = [] := by
            rw [List.eq_nil_iff_forall_not_mem]
            intro kv hkv
            have hmem1 : kv ∈ fin1.1 := hcoh.2.2.1 kv hkv
            have hne := dictGet_ne_none_of_mem fin1.1 kv.1 kv.2
              (by cases kv; exact hmem1)
            cases hgv : dictGet fin1.1 kv.1 with
            | none => exact hne hgv
            | some v =>
              obtain ⟨r, hr, hrt, hk⟩ := hCoh2 kv.1 v hgv
              have hnone := hcoh.2.2.2 r hr hrt
              rw [← hk] at hnone
              exact dictGet_ne_none_of_mem st2.inactive kv.1 kv.2
                (by cases kv; exact hkv) hnone
          have hcmds2 : st2.cmds = [] := hcoh.2.1
          -- assemble res2
          rw [← h2]
          show (runDesired env r4 r6 routes
            ⟨Option.getD (some fin1.1) [], Option.getD (some fin1.1) [],
              []⟩).cmds ++
            (removeAll env (runDesired env r4 r6 routes
              ⟨Option.getD (some fin1.1) [], Option.getD (some fin1.1) [],
                []⟩).inactive
              (runDesired env r4 r6 routes
                ⟨Option.getD (some fin1.1) [], Option.getD (some fin1.1) [],
                  []⟩).active).2 = []
          have hg1 : Option.getD (some fin1.1) [] = fin1.1 := rfl
          rw [hg1]
          rw [show (runDesired env r4 r6 routes ⟨fin1.1, fin1.1, []⟩) = st2
            from rfl]
          rw [hinact2, hcmds2]
          rfl

theorem c2_amended_idempotent_witness :
    (⟨[], some [("IPv4/10.0.0.1/24",
       (⟨some "IPv4", some "10.0.0.1", some 24, some "gw"⟩ : RouteInfo))]⟩ :
      ReconcileResult).cmds = [] :=
  c2_amended_idempotent (fun _ => true)
    (some [("svc", [⟨"IPv4", "10.0.0.1", 24⟩])]) "svc" none
    (some ⟨some "gw", none⟩) none
    ⟨[⟨RouteAction.add, "10.0.0.1", 24, "gw"⟩],
     some [("IPv4/10.0.0.1/24",
       ⟨some "IPv4", some "10.0.0.1", some 24, some "gw"⟩)]⟩
    rfl
    (by decide)
    (by decide)
    (by
      intro r r' hr hr' _
      have hl : getDesiredRoutes
          (some [("svc", [(⟨"IPv4", "10.0.0.1", 24⟩ : DesiredRoute)])])
          "svc" = [⟨"IPv4", "10.0.0.1", 24⟩] := rfl
      rw [hl] at hr hr'
      rw [List.mem_singleton.mp hr, List.mem_singleton.mp hr'])
    ⟨[], some [("IPv4/10.0.0.1/24",
       ⟨some "IPv4", some "10.0.0.1", some 24, some "gw"⟩)]⟩
    rfl
